import Mathlib

/-! # Warehouse analyzer (`internal/rules/warehouse/analyzer.go`)

A shallow embedding of the warehouse analyzer of the merge-request reviewer,
and proofs of the properties its specification states about it.

Conventions of the embedding.

* A Go `string` is a Lean `String`, a Go `int` is an `Int` (the code compares
  and prints integers, it never does arithmetic on them), a Go slice is a `List`.
* A Go `map[string]string` is a `GoMap`: the list of its entries, with at most
  one entry per key.  `range` over a map visits every entry once in an order the
  language leaves unspecified; the order is supplied by `Env.mapRange`, which may
  be any function returning a permutation of the entries.
* A Go result `(*T, error)` produced by the analyzer is a pair of options
  (`none` is `nil`), so that "an error and no change list" is a statement about
  the returned pair.
* A Go `error` is represented by its message, the string `err.Error()` returns.
* The GitLab client is an interface: it is a record of functions over an
  arbitrary client state, each returning `Except` (an error, or the value the
  returned pointer refers to).
* The warehouse rule (`rule.go`) is not among the sources, its tests
  (`rule_test.go`) are: the rule is modelled from the specification, in
  definitions marked as such.
-/

namespace Naysayer

/-! ## Data model -/

/-- Go `Warehouse`: one warehouse configuration (`Type_` is the Go field `Type`,
a reserved word here). -/
structure Warehouse where
  Type_ : String
  Size : String
  deriving DecidableEq

/-- Go `Tags`: the tags section of a data product. -/
structure Tags where
  DataProduct : String
  deriving DecidableEq

/-- Go `DataProduct`: the structure of a dataproduct YAML document. -/
structure DataProduct where
  Name : String
  Kind : String
  RoverGroup : String
  Warehouses : List Warehouse
  Tags : Tags
  deriving DecidableEq

/-- Go `WarehouseChange`: the record `compareWarehouses` builds, with the four
fields it fills. -/
structure WarehouseChange where
  FilePath : String
  FromSize : String
  ToSize : String
  IsDecrease : Bool
  deriving DecidableEq

/-- Go `gitlab.FileContent`, restricted to the field the analyzer reads. -/
structure FileContent where
  Content : String
  deriving DecidableEq

/-- Go `gitlab.MRDetails`, restricted to the fields the analyzer reads. -/
structure MRDetails where
  SourceProjectID : Int
  SourceBranch : String
  deriving DecidableEq

/-- Go `gitlab.FileChange`, restricted to the fields the analyzer reads. -/
structure FileChange where
  NewPath : String
  DeletedFile : Bool
  deriving DecidableEq

/-! ## Go maps from strings to strings -/

/-- A Go `map[string]string`, as the list of its entries. -/
abbrev GoMap := List (String × String)

namespace GoMap

/-- The statement `m[k] = v`: overwrite the entry of `k`, or add one. -/
def set : GoMap → String → String → GoMap
  | [], k, v => [(k, v)]
  | (k', v') :: m, k, v => if k' = k then (k, v) :: m else (k', v') :: set m k v

/-- The expression `v, ok := m[k]`. -/
def get? : GoMap → String → Option String
  | [], _ => none
  | (k', v') :: m, k => if k' = k then some v' else get? m k

end GoMap

/-! ## Environment of the analyzer -/

/-- What the analyzer takes from outside `analyzer.go`.

* `WarehouseSizes`: the package-level table `WarehouseSizes` (a
  `map[string]int` declared in another file), as its lookup function;
* `yamlUnmarshal`: `yaml.Unmarshal` into a `DataProduct`, an error message or
  the decoded document;
* `IsDataProductFile`: the filter `shared.IsDataProductFile`;
* `mapRange`: the order in which `range` visits the entries of a map. -/
structure Env where
  WarehouseSizes : String → Option Int
  yamlUnmarshal : String → Except String DataProduct
  IsDataProductFile : String → Bool
  mapRange : GoMap → GoMap
  mapRange_perm : ∀ m : GoMap, (mapRange m).Perm m

/-! ## `compareWarehouses` -/

/-- The two loops that fill `oldWarehouses` and `newWarehouses`:
`for _, wh := range ws { m[wh.Type] = wh.Size }`. -/
def warehouseMap (ws : List Warehouse) : GoMap :=
  ws.foldl (fun m wh => GoMap.set m wh.Type_ wh.Size) []

/-- The body of the loop `for whType, newSize := range newWarehouses`. -/
def compareStep (env : Env) (filePath : String) (oldWarehouses : GoMap)
    (changes : List WarehouseChange) (entry : String × String) : List WarehouseChange :=
  let whType := entry.1
  let newSize := entry.2
  match GoMap.get? oldWarehouses whType with
  | some oldSize =>
    if oldSize ≠ newSize then
      match env.WarehouseSizes oldSize, env.WarehouseSizes newSize with
      | some oldValue, some newValue =>
        changes ++ [{ FilePath := filePath ++ " (type: " ++ whType ++ ")"
                      FromSize := oldSize
                      ToSize := newSize
                      IsDecrease := decide (oldValue > newValue) }]
      | _, _ => changes
    else changes
  | none => changes

/-- Go `compareWarehouses`: compares warehouse configurations between old and new. -/
def compareWarehouses (env : Env) (filePath : String) (oldDP newDP : DataProduct) :
    List WarehouseChange :=
  let oldWarehouses := warehouseMap oldDP.Warehouses
  let newWarehouses := warehouseMap newDP.Warehouses
  (env.mapRange newWarehouses).foldl (compareStep env filePath oldWarehouses) []

/-! ## The GitLab client -/

/-- Go `strings.Contains` on the characters of the two strings, scanning the
start positions from left to right. -/
def stringsContainsAux (substr : List Char) : List Char → Bool
  | [] => substr.isPrefixOf []
  | c :: s => substr.isPrefixOf (c :: s) || stringsContainsAux substr s

/-- Go `strings.Contains(s, substr)`. -/
def stringsContains (s substr : String) : Bool :=
  stringsContainsAux substr.data s.data

/-- Go `GitLabClientInterface`: the GitLab API operations the analyzer needs.
A client has a state of type `σ` (the remote side, its own caches), which
every operation may read and change. -/
structure GitLabClientInterface (σ : Type) where
  GetMRTargetBranch : σ → Int → Int → Except String String × σ
  FetchFileContent : σ → Int → String → String → Except String FileContent × σ
  GetMRDetails : σ → Int → Int → Except String MRDetails × σ

/-! ## `parseDataProduct`, `analyzeFileChange`, `AnalyzeChanges` -/

/-- Go `parseDataProduct`: parses YAML content into a `DataProduct`.  The Go
function returns `(nil, error)` or `(&dp, nil)`: the two cases of `Except`. -/
def parseDataProduct (env : Env) (content : String) : Except String DataProduct :=
  match env.yamlUnmarshal content with
  | .error err => .error ("YAML parsing error: " ++ err)
  | .ok dp => .ok dp

/-- The Go literal `&DataProduct{Warehouses: []Warehouse{}}`. -/
def emptyDataProduct : DataProduct :=
  { Name := "", Kind := "", RoverGroup := "", Warehouses := [], Tags := { DataProduct := "" } }

/-- Go `analyzeFileChange`: fetches complete file content and compares YAML
structures.  The result is the returned pair `(*[]WarehouseChange, error)` and
the state the client is left in. -/
def analyzeFileChange {σ : Type} (env : Env) (client : GitLabClientInterface σ) (st : σ)
    (projectID mrIID : Int) (filePath : String) :
    (Option (List WarehouseChange) × Option String) × σ :=
  match client.GetMRTargetBranch st projectID mrIID with
  | (.error err, st1) => ((none, some ("failed to get target branch: " ++ err)), st1)
  | (.ok targetBranch, st1) =>
  match client.GetMRDetails st1 projectID mrIID with
  | (.error err, st2) => ((none, some ("failed to get MR details: " ++ err)), st2)
  | (.ok mrDetails, st2) =>
  let targetProjectID := projectID
  let sourceProjectID :=
    if mrDetails.SourceProjectID ≠ 0 ∧ mrDetails.SourceProjectID ≠ targetProjectID then
      mrDetails.SourceProjectID
    else projectID
  match client.FetchFileContent st2 targetProjectID filePath targetBranch with
  | (.error err, st3) =>
    if stringsContains err "file not found" then
      match client.FetchFileContent st3 sourceProjectID filePath mrDetails.SourceBranch with
      | (.error err, st4) =>
        if stringsContains err "file not found" then ((some [], none), st4)
        else
          ((none, some ("failed to fetch new file content from source project "
            ++ toString sourceProjectID ++ ", branch " ++ mrDetails.SourceBranch ++ ": " ++ err)),
            st4)
      | (.ok newContent, st4) =>
        let oldDP := emptyDataProduct
        match parseDataProduct env newContent.Content with
        | .error err => ((none, some ("failed to parse new YAML file: " ++ err)), st4)
        | .ok newDP => ((some (compareWarehouses env filePath oldDP newDP), none), st4)
    else
      ((none, some ("failed to fetch old file content from target project "
        ++ toString targetProjectID ++ ", branch " ++ targetBranch ++ ": " ++ err)), st3)
  | (.ok oldContent, st3) =>
    match client.FetchFileContent st3 sourceProjectID filePath mrDetails.SourceBranch with
    | (.error err, st4) =>
      if stringsContains err "file not found" then
        let newDP := emptyDataProduct
        match parseDataProduct env oldContent.Content with
        | .error err =>
          ((none, some ("failed to parse old YAML for deleted file: " ++ err)), st4)
        | .ok oldDP => ((some (compareWarehouses env filePath oldDP newDP), none), st4)
      else
        ((none, some ("failed to fetch new file content from source project "
          ++ toString sourceProjectID ++ ", branch " ++ mrDetails.SourceBranch ++ ": " ++ err)),
          st4)
    | (.ok newContent, st4) =>
      match parseDataProduct env oldContent.Content with
      | .error err => ((none, some ("failed to parse old YAML: " ++ err)), st4)
      | .ok oldDP =>
        match parseDataProduct env newContent.Content with
        | .error err => ((none, some ("failed to parse new YAML: " ++ err)), st4)
        | .ok newDP => ((some (compareWarehouses env filePath oldDP newDP), none), st4)

/-- The loop of Go `AnalyzeChanges` over the remaining `changes`, with the
records collected so far in `warehouseChanges`. -/
def analyzeChangesLoop {σ : Type} (env : Env) (client : GitLabClientInterface σ)
    (projectID mrIID : Int) :
    List FileChange → σ → List WarehouseChange →
      (Option (List WarehouseChange) × Option String) × σ
  | [], st, warehouseChanges => ((some warehouseChanges, none), st)
  | change :: changes, st, warehouseChanges =>
    if change.DeletedFile then
      analyzeChangesLoop env client projectID mrIID changes st warehouseChanges
    else if !env.IsDataProductFile change.NewPath then
      analyzeChangesLoop env client projectID mrIID changes st warehouseChanges
    else
      match analyzeFileChange env client st projectID mrIID change.NewPath with
      | ((_, some err), st1) =>
        ((none, some ("failed to analyze file " ++ change.NewPath ++ ": " ++ err)), st1)
      | ((some fileChanges, none), st1) =>
        analyzeChangesLoop env client projectID mrIID changes st1
          (warehouseChanges ++ fileChanges)
      | ((none, none), st1) =>
        analyzeChangesLoop env client projectID mrIID changes st1 warehouseChanges

/-- Go `AnalyzeChanges`: analyzes the changes of a merge request for warehouse
modifications.  The result is the returned pair `([]WarehouseChange, error)` and
the state the client is left in. -/
def AnalyzeChanges {σ : Type} (env : Env) (client : GitLabClientInterface σ) (st : σ)
    (projectID mrIID : Int) (changes : List FileChange) :
    (Option (List WarehouseChange) × Option String) × σ :=
  analyzeChangesLoop env client projectID mrIID changes st []

/-! ## Observing the calls a client receives -/

deriving instance DecidableEq for Except

/-- One call received by a client, with its arguments and what it returned. -/
inductive Call where
  | GetMRTargetBranch (projectID mrIID : Int) (result : Except String String)
  | FetchFileContent (projectID : Int) (filePath ref : String)
      (result : Except String FileContent)
  | GetMRDetails (projectID mrIID : Int) (result : Except String MRDetails)
  deriving DecidableEq

/-- The client `client`, with a journal of the calls it receives added to its
state: every operation behaves as in `client` and appends its call. -/
def recording {σ : Type} (client : GitLabClientInterface σ) :
    GitLabClientInterface (σ × List Call) where
  GetMRTargetBranch := fun st projectID mrIID =>
    let r := client.GetMRTargetBranch st.1 projectID mrIID
    (r.1, (r.2, st.2 ++ [Call.GetMRTargetBranch projectID mrIID r.1]))
  FetchFileContent := fun st projectID filePath ref =>
    let r := client.FetchFileContent st.1 projectID filePath ref
    (r.1, (r.2, st.2 ++ [Call.FetchFileContent projectID filePath ref r.1]))
  GetMRDetails := fun st projectID mrIID =>
    let r := client.GetMRDetails st.1 projectID mrIID
    (r.1, (r.2, st.2 ++ [Call.GetMRDetails projectID mrIID r.1]))

/-- The record the loop body appends for one entry of `newWarehouses`, if any. -/
def changeFor (env : Env) (filePath : String) (oldWarehouses : GoMap)
    (entry : String × String) : Option WarehouseChange :=
  match GoMap.get? oldWarehouses entry.1 with
  | some oldSize =>
    if oldSize ≠ entry.2 then
      match env.WarehouseSizes oldSize, env.WarehouseSizes entry.2 with
      | some oldValue, some newValue =>
        some { FilePath := filePath ++ " (type: " ++ entry.1 ++ ")"
               FromSize := oldSize
               ToSize := entry.2
               IsDecrease := decide (oldValue > newValue) }
      | _, _ => none
    else none
  | none => none

/-! ## Specification vocabulary -/

/-- The size a snapshot gives to the warehouse type `T`: the size of the last
entry of type `T` in sequence order, if there is one. -/
def sizeOfType (ws : List Warehouse) (T : String) : Option String :=
  (ws.reverse.find? (fun wh => decide (wh.Type_ = T))).map (fun wh => wh.Size)

/-- The warehouse types occurring in a snapshot. -/
def typesOf (dp : DataProduct) : List String :=
  dp.Warehouses.map (fun wh => wh.Type_)

/-- The locator of the record for type `T` in file `filePath`. -/
def locator (filePath T : String) : String :=
  filePath ++ " (type: " ++ T ++ ")"

/-- Whether `size` is a label of the size ordinal table. -/
def isLabel (env : Env) (size : String) : Bool :=
  (env.WarehouseSizes size).isSome

/-- The warehouse types that occur in both snapshots with sizes that differ and
are both labels of the size ordinal table, each listed once. -/
def changedTypes (env : Env) (oldDP newDP : DataProduct) : List String :=
  (typesOf newDP).dedup.filter (fun T =>
    decide (T ∈ typesOf oldDP) &&
      match sizeOfType oldDP.Warehouses T, sizeOfType newDP.Warehouses T with
      | some oldSize, some newSize =>
        decide (oldSize ≠ newSize) && isLabel env oldSize && isLabel env newSize
      | _, _ => false)

/-! ## A concrete environment

The theorems hold for every environment.  The examples below are evaluated in
this one. -/

/-- The final component of a path: what follows its last `/`. -/
def finalComponent (cs : List Char) : List Char :=
  cs.foldl (fun acc c => if c = '/' then [] else acc ++ [c]) []

/-- Modelled from the spec: the domain file filter `shared.IsDataProductFile`,
whose code is in another package.  A path is in-domain iff its final path
component, compared case-insensitively, equals `product.yaml` or `product.yml`. -/
def IsDataProductFile (path : String) : Bool :=
  let lower := (finalComponent path.data).map Char.toLower
  lower == "product.yaml".data || lower == "product.yml".data

/-- A data product with the given warehouses and nothing else. -/
def dataProductOf (ws : List Warehouse) : DataProduct :=
  { Name := "", Kind := "", RoverGroup := "", Warehouses := ws, Tags := { DataProduct := "" } }

/-- An environment for the examples: a size table of four tiers, a decoder that
knows three documents and rejects every other content, the file filter of the
specification, and `range` visiting the entries of a map in insertion order. -/
def sampleEnv : Env where
  WarehouseSizes := fun size =>
    if size = "XSMALL" then some 1
    else if size = "SMALL" then some 2
    else if size = "MEDIUM" then some 3
    else if size = "LARGE" then some 4
    else none
  yamlUnmarshal := fun content =>
    if content = "" then .ok (dataProductOf [])
    else if content = "warehouses:\n- type: user\n  size: SMALL\n" then
      .ok (dataProductOf [{ Type_ := "user", Size := "SMALL" }])
    else if content = "warehouses:\n- type: user\n  size: XSMALL\n" then
      .ok (dataProductOf [{ Type_ := "user", Size := "XSMALL" }])
    else .error "yaml: unmarshal errors"
  IsDataProductFile := IsDataProductFile
  mapRange := fun m => m
  mapRange_perm := fun m => List.Perm.refl m

/-! ## Vocabulary for the journal of calls -/

/-- An error is not-found when its message contains `file not found`. -/
def isNotFound (err : String) : Bool :=
  stringsContains err "file not found"

/-- The results of the `FetchFileContent` calls of a journal, in order: the
first is the fetch of the old (target) content, the second the fetch of the new
(source) content. -/
def fetchResults (log : List Call) : List (Except String FileContent) :=
  log.filterMap (fun call =>
    match call with
    | .FetchFileContent _ _ _ result => some result
    | _ => none)

/-- The arguments of the `FetchFileContent` calls of a journal, in order. -/
def fetchCalls (log : List Call) : List (Int × String × String) :=
  log.filterMap (fun call =>
    match call with
    | .FetchFileContent projectID filePath ref _ => some (projectID, filePath, ref)
    | _ => none)

/-- Some `GetMRTargetBranch` call of the journal failed. -/
def targetBranchFailed (log : List Call) : Bool :=
  log.any (fun call =>
    match call with
    | .GetMRTargetBranch _ _ (.error _) => true
    | _ => false)

/-- Some `GetMRDetails` call of the journal failed. -/
def detailsFailed (log : List Call) : Bool :=
  log.any (fun call =>
    match call with
    | .GetMRDetails _ _ (.error _) => true
    | _ => false)

/-- The fetch of the old content failed with an error that is not not-found. -/
def oldFetchFailed (log : List Call) : Bool :=
  match fetchResults log with
  | .error err :: _ => !isNotFound err
  | _ => false

/-- The fetch of the new content failed with an error that is not not-found. -/
def newFetchFailed (log : List Call) : Bool :=
  match fetchResults log with
  | _ :: .error err :: _ => !isNotFound err
  | _ => false

/-- The content is malformed YAML: the decoder rejects it. -/
def isMalformed (env : Env) (content : String) : Bool :=
  match env.yamlUnmarshal content with
  | .error _ => true
  | .ok _ => false

/-- The fetched contents the taken branch parses: the new content when the file
is new (old fetch not-found), the old content when the file is deleted on the
source branch (new fetch not-found), both when both fetches succeed. -/
def parsedContents (log : List Call) : List String :=
  match fetchResults log with
  | [.error err, .ok newContent] => if isNotFound err then [newContent.Content] else []
  | [.ok oldContent, .error err] => if isNotFound err then [oldContent.Content] else []
  | [.ok oldContent, .ok newContent] => [oldContent.Content, newContent.Content]
  | _ => []

/-- A fetched content that the taken branch parses is malformed YAML. -/
def parseFailed (env : Env) (log : List Call) : Bool :=
  (parsedContents log).any (isMalformed env)

/-- A GitLab client for the examples, without state.  Every merge request
targets `main` from the branch `feature`; merge request `8` comes from the fork
`42`.  `a/product.yaml` cannot be fetched, `b/product.yaml` changes the size of
the warehouse `user` from `SMALL` to `XSMALL`, `deleted/product.yaml` exists on
`main` only, `bad/product.yaml` is not YAML, and no other file exists. -/
def sampleClient : GitLabClientInterface Unit where
  GetMRTargetBranch := fun st _ _ => (.ok "main", st)
  GetMRDetails := fun st _ mrIID =>
    (.ok { SourceProjectID := if mrIID = 8 then 42 else 0, SourceBranch := "feature" }, st)
  FetchFileContent := fun st _ filePath ref =>
    if filePath = "a/product.yaml" then (.error "500 Internal Server Error", st)
    else if filePath = "b/product.yaml" then
      if ref = "main" then (.ok { Content := "warehouses:\n- type: user\n  size: SMALL\n" }, st)
      else (.ok { Content := "warehouses:\n- type: user\n  size: XSMALL\n" }, st)
    else if filePath = "deleted/product.yaml" then
      if ref = "main" then (.ok { Content := "warehouses:\n- type: user\n  size: SMALL\n" }, st)
      else (.error "404 file not found", st)
    else if filePath = "bad/product.yaml" then (.ok { Content := "warehouses: [" }, st)
    else (.error "404 file not found", st)

/-- The journal of the calls `analyzeFileChange` makes on a file, with their
results. -/
def callsOfAnalyzeFileChange {σ : Type} (env : Env) (client : GitLabClientInterface σ)
    (st : σ) (projectID mrIID : Int) (filePath : String) : List Call :=
  (analyzeFileChange env (recording client) (st, []) projectID mrIID filePath).2.2

/-- The failures after which the specification lets `analyzeFileChange` return
an error: `GetMRTargetBranch` fails, or `GetMRDetails` fails, or the fetch of
the old content fails with an error that is not not-found, or the fetch of the
new content fails with an error that is not not-found, or a fetched content
that the taken branch parses is malformed YAML. -/
def analysisFailure (env : Env) (log : List Call) : Prop :=
  targetBranchFailed log = true ∨ detailsFailed log = true ∨ oldFetchFailed log = true ∨
    newFetchFailed log = true ∨ parseFailed env log = true

/-- The journal of `sampleClient` after the analysis of `b/product.yaml` for
merge request `7` of project `1`. -/
def sampleJournalB : List Call :=
  [.GetMRTargetBranch 1 7 (.ok "main"),
    .GetMRDetails 1 7 (.ok { SourceProjectID := 0, SourceBranch := "feature" }),
    .FetchFileContent 1 "b/product.yaml" "main"
      (.ok { Content := "warehouses:\n- type: user\n  size: SMALL\n" }),
    .FetchFileContent 1 "b/product.yaml" "feature"
      (.ok { Content := "warehouses:\n- type: user\n  size: XSMALL\n" })]

/-- The journal of `sampleClient` after the analysis of `b/product.yaml` and
then of `a/product.yaml`, whose fetch fails. -/
def sampleJournalBA : List Call :=
  sampleJournalB ++
    [.GetMRTargetBranch 1 7 (.ok "main"),
      .GetMRDetails 1 7 (.ok { SourceProjectID := 0, SourceBranch := "feature" }),
      .FetchFileContent 1 "a/product.yaml" "main" (.error "500 Internal Server Error")]

/-! ## Vocabulary for duplicated warehouse types -/

/-- The list that keeps only the last occurrence of each warehouse type: an
entry stays when no later entry has its type. -/
def keepLast : List Warehouse → List Warehouse
  | [] => []
  | wh :: ws =>
    if ws.any (fun wh' => decide (wh'.Type_ = wh.Type_)) then keepLast ws
    else wh :: keepLast ws

/-- The snapshot `dp` with its warehouses replaced by `ws`. -/
def withWarehouses (dp : DataProduct) (ws : List Warehouse) : DataProduct :=
  { dp with Warehouses := ws }

/-! ## Vocabulary for the invocations of `analyzeFileChange` -/

/-- The number of `GetMRTargetBranch` calls of a journal.  `analyzeFileChange`
starts with this call and makes it once, so that this is the number of
invocations of `analyzeFileChange` the journal records. -/
def targetBranchCalls (log : List Call) : Nat :=
  (log.filter (fun call =>
    match call with
    | .GetMRTargetBranch _ _ _ => true
    | _ => false)).length

/-- The file paths of the `FetchFileContent` calls of a journal, in order. -/
def fetchPaths (log : List Call) : List String :=
  (fetchCalls log).map (fun call => call.2.1)

/-- The paths of the changed files that are not deleted and match the domain
file filter, in the order of the list. -/
def analyzedPaths (env : Env) (changes : List FileChange) : List String :=
  (changes.filter (fun change =>
    !change.DeletedFile && env.IsDataProductFile change.NewPath)).map
    (fun change => change.NewPath)

/-! ## The warehouse rule (`rule.go`)

The sources hold the tests of the rule (`rule_test.go`), not its code: the rule
is modelled from the specification and from what the tests call and expect. -/

/-- Go `shared.DecisionType`, with the two outcomes the tests name. -/
inductive DecisionType where
  | Approve
  | ManualReview
  deriving DecidableEq

/-- Go `shared.LineRange`, with the fields the tests read and write. -/
structure LineRange where
  StartLine : Int
  EndLine : Int
  FilePath : String
  deriving DecidableEq

/-- Modelled from the spec: the rule built by `NewRule`, whose code (`rule.go`)
is not among the sources.  A rule holds the evaluation context it was built
with; `NewRule(nil)` builds a rule without one. -/
structure Rule (κ : Type) where
  context : Option κ

/-- Modelled from the spec: `NewRule`, of `rule.go`, which builds a rule from an
evaluation context that may be absent. -/
def NewRule {κ : Type} (context : Option κ) : Rule κ :=
  { context := context }

/-- Modelled from the spec: the method `isWarehouseFile` of `rule.go`, the
domain file filter of the rule (`appliesTo`), which is the filter
`IsDataProductFile`. -/
def isWarehouseFile {κ : Type} (_rule : Rule κ) (path : String) : Bool :=
  IsDataProductFile path

/-- Modelled from the spec: the method `ValidateLines` of `rule.go` (`validate`
of section 4.5).  A file the rule does not govern is approved; a governed file
evaluated by a rule without evaluation context goes to manual review; with a
context the decision is that of the policy `withContext`, which the
specification leaves open. -/
def ValidateLines {κ : Type}
    (withContext : κ → String → String → List LineRange → DecisionType × String)
    (rule : Rule κ) (filePath fileContent : String) (lineRanges : List LineRange) :
    DecisionType × String :=
  if !isWarehouseFile rule filePath then (DecisionType.Approve, "Not a warehouse file")
  else
    match rule.context with
    | none => (DecisionType.ManualReview, "Warehouse validation requires full context")
    | some ctx => withContext ctx filePath fileContent lineRanges

/-- The lines of a text: Go `strings.Split(content, "\n")` on characters. -/
def splitLines (cs : List Char) : List (List Char) :=
  cs.foldr (fun c acc =>
    if c = '\n' then [] :: acc
    else
      match acc with
      | [] => [[c]]
      | line :: lines => (c :: line) :: lines) [[]]

/-- Modelled from the spec: a section marker line, a line that starts (at the
top level, without indentation) with `warehouses:` or `service_account:`. -/
def isSectionMarker (line : List Char) : Bool :=
  "warehouses:".data.isPrefixOf line || "service_account:".data.isPrefixOf line

/-- The ranges of the marker lines among `lines`, the first of which has line
number `lineNumber`. -/
def coveredFrom (filePath : String) : Nat → List (List Char) → List LineRange
  | _, [] => []
  | lineNumber, line :: lines =>
    if isSectionMarker line then
      { StartLine := lineNumber, EndLine := lineNumber, FilePath := filePath } ::
        coveredFrom filePath (lineNumber + 1) lines
    else coveredFrom filePath (lineNumber + 1) lines

/-- Modelled from the spec: the method `GetCoveredLines` of `rule.go`
(`ownedRanges` of section 4.4).  A file outside the domain yields no range; in
a governed file every section marker line yields one range, which covers the
marker line only, in the order of the lines. -/
def GetCoveredLines {κ : Type} (rule : Rule κ) (filePath fileContent : String) :
    List LineRange :=
  if !isWarehouseFile rule filePath then []
  else coveredFrom filePath 1 (splitLines fileContent.data)

/-! ## Lemmas on Go maps -/

theorem GoMap.get?_set (m : GoMap) (k v k' : String) :
    GoMap.get? (GoMap.set m k v) k' = if k = k' then some v else GoMap.get? m k' := by
  induction m with
  | nil => simp [GoMap.set, GoMap.get?]
  | cons e m ih =>
    obtain ⟨k0, v0⟩ := e
    by_cases h0 : k0 = k
    · subst h0
      by_cases h1 : k0 = k' <;> simp [GoMap.set, GoMap.get?, h1]
    · by_cases h1 : k0 = k'
      · subst h1
        have h2 : ¬ k = k0 := fun h => h0 h.symm
        simp [GoMap.set, GoMap.get?, h0, h2]
      · simp [GoMap.set, GoMap.get?, h0, h1, ih]

theorem GoMap.keys_set (m : GoMap) (k v : String) :
    (GoMap.set m k v).map Prod.fst = if k ∈ m.map Prod.fst then m.map Prod.fst
      else m.map Prod.fst ++ [k] := by
  induction m with
  | nil => simp [GoMap.set]
  | cons e m ih =>
    obtain ⟨k0, v0⟩ := e
    by_cases h0 : k0 = k
    · subst h0
      simp [GoMap.set]
    · have h2 : ¬ k = k0 := fun h => h0 h.symm
      by_cases h1 : k ∈ m.map Prod.fst
      · simp only [GoMap.set, h0, if_false, List.map_cons, ih, h1, if_true, List.mem_cons,
          or_true]
      · simp only [GoMap.set, h0, if_false, List.map_cons, ih, h1, List.mem_cons, h2,
          or_self, List.cons_append]

theorem GoMap.nodup_set (m : GoMap) (k v : String) (h : (m.map Prod.fst).Nodup) :
    ((GoMap.set m k v).map Prod.fst).Nodup := by
  rw [GoMap.keys_set]
  split
  · exact h
  · rename_i hk
    rw [List.nodup_append]
    refine ⟨h, List.nodup_singleton k, ?_⟩
    intro a ha hb
    rw [List.mem_singleton] at hb
    subst hb
    exact hk ha

theorem GoMap.get?_eq_some_of_mem (m : GoMap) (h : (m.map Prod.fst).Nodup) (k v : String)
    (hm : (k, v) ∈ m) : GoMap.get? m k = some v := by
  induction m with
  | nil => simp at hm
  | cons e m ih =>
    obtain ⟨k0, v0⟩ := e
    rw [List.map_cons, List.nodup_cons] at h
    rcases List.mem_cons.mp hm with heq | hmem
    · cases heq
      simp [GoMap.get?]
    · have hne : ¬ k0 = k := by
        intro hk
        subst hk
        exact h.1 (List.mem_map.mpr ⟨(k0, v), hmem, rfl⟩)
      simp [GoMap.get?, hne, ih h.2 hmem]

theorem GoMap.mem_of_get?_eq_some (m : GoMap) (k v : String)
    (hg : GoMap.get? m k = some v) : (k, v) ∈ m := by
  induction m with
  | nil => simp [GoMap.get?] at hg
  | cons e m ih =>
    obtain ⟨k0, v0⟩ := e
    by_cases h0 : k0 = k
    · subst h0
      simp [GoMap.get?] at hg
      subst hg
      exact List.mem_cons_self _ _
    · simp [GoMap.get?, h0] at hg
      exact List.mem_cons_of_mem _ (ih hg)

/-! ## Lemmas on `warehouseMap` -/

theorem foldl_set_nodup (ws : List Warehouse) (m : GoMap) (h : (m.map Prod.fst).Nodup) :
    ((ws.foldl (fun m wh => GoMap.set m wh.Type_ wh.Size) m).map Prod.fst).Nodup := by
  induction ws generalizing m with
  | nil => exact h
  | cons w ws ih => exact ih _ (GoMap.nodup_set m _ _ h)

theorem warehouseMap_nodup (ws : List Warehouse) :
    ((warehouseMap ws).map Prod.fst).Nodup :=
  foldl_set_nodup ws [] List.nodup_nil

theorem foldl_set_get? (ws : List Warehouse) (m : GoMap) (T : String) :
    GoMap.get? (ws.foldl (fun m wh => GoMap.set m wh.Type_ wh.Size) m) T =
      match sizeOfType ws T with
      | some s => some s
      | none => GoMap.get? m T := by
  induction ws generalizing m with
  | nil => simp [sizeOfType]
  | cons w ws ih =>
    rw [List.foldl_cons, ih, GoMap.get?_set]
    simp only [sizeOfType, List.reverse_cons, List.find?_append]
    cases hf : List.find? (fun wh => decide (wh.Type_ = T)) ws.reverse with
    | some x => simp
    | none =>
      by_cases hw : w.Type_ = T <;> simp [hw, sizeOfType]

theorem warehouseMap_get? (ws : List Warehouse) (T : String) :
    GoMap.get? (warehouseMap ws) T = sizeOfType ws T := by
  unfold warehouseMap
  rw [foldl_set_get?]
  cases sizeOfType ws T <;> simp [GoMap.get?]

theorem sizeOfType_isSome (ws : List Warehouse) (T : String) :
    (sizeOfType ws T).isSome = true ↔ T ∈ ws.map (fun wh => wh.Type_) := by
  simp only [sizeOfType, Option.isSome_map', List.find?_isSome, List.mem_reverse,
    decide_eq_true_eq, List.mem_map]

theorem sizeOfType_eq_none (ws : List Warehouse) (T : String) :
    sizeOfType ws T = none ↔ T ∉ ws.map (fun wh => wh.Type_) := by
  rw [← sizeOfType_isSome]
  cases sizeOfType ws T <;> simp

/-! ## Lemmas on `compareWarehouses` -/

theorem compareStep_eq (env : Env) (filePath : String) (oldWarehouses : GoMap)
    (changes : List WarehouseChange) (entry : String × String) :
    compareStep env filePath oldWarehouses changes entry =
      changes ++ (changeFor env filePath oldWarehouses entry).toList := by
  unfold compareStep changeFor
  cases hg : GoMap.get? oldWarehouses entry.1 with
  | none => simp [hg]
  | some oldSize =>
    by_cases hne : oldSize = entry.2
    · simp [hg, hne]
    · cases ha : env.WarehouseSizes oldSize <;> cases hb : env.WarehouseSizes entry.2 <;>
        simp [hg, hne, ha, hb]

theorem foldl_compareStep (env : Env) (filePath : String) (oldWarehouses : GoMap)
    (entries : List (String × String)) (changes : List WarehouseChange) :
    entries.foldl (compareStep env filePath oldWarehouses) changes =
      changes ++ entries.filterMap (changeFor env filePath oldWarehouses) := by
  induction entries generalizing changes with
  | nil => simp
  | cons e es ih =>
    rw [List.foldl_cons, ih, compareStep_eq, List.filterMap_cons]
    cases changeFor env filePath oldWarehouses e <;> simp

theorem compareWarehouses_eq (env : Env) (filePath : String) (oldDP newDP : DataProduct) :
    compareWarehouses env filePath oldDP newDP =
      (env.mapRange (warehouseMap newDP.Warehouses)).filterMap
        (changeFor env filePath (warehouseMap oldDP.Warehouses)) := by
  unfold compareWarehouses
  simp only [foldl_compareStep, List.nil_append]

theorem compareWarehouses_perm (env : Env) (filePath : String) (oldDP newDP : DataProduct) :
    (compareWarehouses env filePath oldDP newDP).Perm
      ((warehouseMap newDP.Warehouses).filterMap
        (changeFor env filePath (warehouseMap oldDP.Warehouses))) := by
  rw [compareWarehouses_eq]
  exact (env.mapRange_perm _).filterMap _

/-- Membership in the result of `compareWarehouses`, in terms of the two
snapshots. -/
theorem mem_compareWarehouses (env : Env) (filePath : String) (oldDP newDP : DataProduct)
    (r : WarehouseChange) :
    r ∈ compareWarehouses env filePath oldDP newDP ↔
      ∃ T oldSize newSize oldValue newValue,
        sizeOfType oldDP.Warehouses T = some oldSize ∧
        sizeOfType newDP.Warehouses T = some newSize ∧
        oldSize ≠ newSize ∧
        env.WarehouseSizes oldSize = some oldValue ∧
        env.WarehouseSizes newSize = some newValue ∧
        r = { FilePath := locator filePath T, FromSize := oldSize, ToSize := newSize,
              IsDecrease := decide (oldValue > newValue) } := by
  rw [(compareWarehouses_perm env filePath oldDP newDP).mem_iff, List.mem_filterMap]
  constructor
  · rintro ⟨⟨T, newSize⟩, hmem, hch⟩
    have hnew := GoMap.get?_eq_some_of_mem _ (warehouseMap_nodup newDP.Warehouses) T newSize hmem
    rw [warehouseMap_get?] at hnew
    unfold changeFor at hch
    rw [warehouseMap_get?] at hch
    cases hold : sizeOfType oldDP.Warehouses T with
    | none => simp [hold] at hch
    | some oldSize =>
      simp only [hold] at hch
      by_cases hne : oldSize = newSize
      · simp [hne] at hch
      · simp only [ne_eq, hne, not_false_eq_true, if_true] at hch
        cases ha : env.WarehouseSizes oldSize with
        | none => simp [ha] at hch
        | some oldValue =>
          cases hb : env.WarehouseSizes newSize with
          | none => simp [ha, hb] at hch
          | some newValue =>
            simp only [ha, hb, Option.some.injEq] at hch
            exact ⟨T, oldSize, newSize, oldValue, newValue, hold, hnew, hne, ha, hb, hch.symm⟩
  · rintro ⟨T, oldSize, newSize, oldValue, newValue, hold, hnew, hne, ha, hb, hr⟩
    refine ⟨(T, newSize), ?_, ?_⟩
    · apply GoMap.mem_of_get?_eq_some
      rw [warehouseMap_get?]
      exact hnew
    · unfold changeFor
      rw [warehouseMap_get?]
      simp only [hold, ne_eq, hne, not_false_eq_true, if_true, ha, hb, hr, locator]

theorem locator_injective (filePath T T' : String)
    (h : locator filePath T = locator filePath T') : T = T' := by
  have hd := congrArg String.data h
  simp only [locator, String.data_append, List.append_assoc, List.append_cancel_left_eq,
    List.append_cancel_right_eq] at hd
  exact String.ext hd

theorem mem_changedTypes (env : Env) (oldDP newDP : DataProduct) (T : String) :
    T ∈ changedTypes env oldDP newDP ↔
      T ∈ typesOf oldDP ∧ T ∈ typesOf newDP ∧
        ∃ oldSize newSize, sizeOfType oldDP.Warehouses T = some oldSize ∧
          sizeOfType newDP.Warehouses T = some newSize ∧ oldSize ≠ newSize ∧
          isLabel env oldSize = true ∧ isLabel env newSize = true := by
  unfold changedTypes
  rw [List.mem_filter, List.mem_dedup]
  cases ha : sizeOfType oldDP.Warehouses T with
  | none => simp
  | some oldSize =>
    cases hb : sizeOfType newDP.Warehouses T with
    | none => simp
    | some newSize =>
      simp only [Bool.and_eq_true, decide_eq_true_eq, ne_eq, Option.some.injEq]
      constructor
      · rintro ⟨h1, h2, ⟨h3, h4⟩, h5⟩
        exact ⟨h2, h1, oldSize, newSize, rfl, rfl, h3, h4, h5⟩
      · rintro ⟨h1, h2, a, b, rfl, rfl, h3, h4, h5⟩
        exact ⟨h2, h1, ⟨h3, h4⟩, h5⟩

theorem changedTypes_nodup (env : Env) (oldDP newDP : DataProduct) :
    (changedTypes env oldDP newDP).Nodup :=
  List.Nodup.filter _ (List.nodup_dedup _)

/-- The locators of the records of `compareWarehouses` are those of the changed
types. -/
theorem mem_map_FilePath (env : Env) (filePath : String) (oldDP newDP : DataProduct)
    (fp : String) :
    fp ∈ (compareWarehouses env filePath oldDP newDP).map (fun r => r.FilePath) ↔
      fp ∈ (changedTypes env oldDP newDP).map (locator filePath) := by
  simp only [List.mem_map, mem_compareWarehouses, mem_changedTypes, isLabel]
  constructor
  · rintro ⟨r, ⟨T, a, b, x, y, h1, h2, h3, h4, h5, rfl⟩, rfl⟩
    refine ⟨T, ⟨?_, ?_, a, b, h1, h2, h3, ?_, ?_⟩, rfl⟩
    · rw [typesOf, ← sizeOfType_isSome, h1]; rfl
    · rw [typesOf, ← sizeOfType_isSome, h2]; rfl
    · rw [h4]; rfl
    · rw [h5]; rfl
  · rintro ⟨T, ⟨_, _, a, b, h1, h2, h3, h4, h5⟩, rfl⟩
    cases hx : env.WarehouseSizes a with
    | none => simp [hx] at h4
    | some x =>
      cases hy : env.WarehouseSizes b with
      | none => simp [hy] at h5
      | some y => exact ⟨_, ⟨T, a, b, x, y, h1, h2, h3, hx, hy, rfl⟩, rfl⟩

/-- No two records of `compareWarehouses` have the same locator. -/
theorem nodup_map_FilePath (env : Env) (filePath : String) (oldDP newDP : DataProduct) :
    ((compareWarehouses env filePath oldDP newDP).map (fun r => r.FilePath)).Nodup := by
  refine ((compareWarehouses_perm env filePath oldDP newDP).map _).nodup_iff.mpr ?_
  rw [List.Nodup, List.pairwise_map]
  have hkeys := warehouseMap_nodup newDP.Warehouses
  rw [List.Nodup, List.pairwise_map] at hkeys
  refine List.Pairwise.filterMap _ ?_ hkeys
  intro e e' hne r hr r' hr' heq
  have key : ∀ (e : String × String) (r : WarehouseChange),
      r ∈ changeFor env filePath (warehouseMap oldDP.Warehouses) e →
        r.FilePath = locator filePath e.1 := by
    intro e r hr
    unfold changeFor at hr
    split at hr
    · split at hr
      · split at hr
        · simp only [Option.mem_def, Option.some.injEq] at hr
          rw [← hr]; rfl
        · simp at hr
      · simp at hr
    · simp at hr
  rw [key e r hr, key e' r' hr'] at heq
  exact hne (locator_injective filePath _ _ heq)

theorem filter_eq_singleton {α β : Type} [DecidableEq β] (f : α → β) (l : List α)
    (h : (l.map f).Nodup) (r : α) (hr : r ∈ l) :
    l.filter (fun x => decide (f x = f r)) = [r] := by
  induction l with
  | nil => simp at hr
  | cons a l ih =>
    rw [List.map_cons, List.nodup_cons] at h
    rcases List.mem_cons.mp hr with heq | hmem
    · subst heq
      have hnone : l.filter (fun x => decide (f x = f r)) = [] := by
        rw [List.filter_eq_nil_iff]
        intro x hx hfx
        simp only [decide_eq_true_eq] at hfx
        exact h.1 (hfx ▸ List.mem_map_of_mem f hx)
      simp [List.filter_cons, hnone]
    · have hne : ¬ f a = f r := fun hfa => h.1 (hfa ▸ List.mem_map_of_mem f hmem)
      simp [List.filter_cons, hne, ih h.2 hmem]

/-! ## Theorems -/

/-- C1: every record `r` returned by `compareWarehouses` has `r.FromSize` and
`r.ToSize` both present as labels in the size ordinal table, and `r.IsDecrease`
is true if and only if the ordinal of `r.FromSize` is strictly greater than the
ordinal of `r.ToSize`. -/
theorem compareWarehouses_sizes_ranked (env : Env) (filePath : String)
    (oldDP newDP : DataProduct) (r : WarehouseChange)
    (hr : r ∈ compareWarehouses env filePath oldDP newDP) :
    ∃ oldValue newValue, env.WarehouseSizes r.FromSize = some oldValue ∧
      env.WarehouseSizes r.ToSize = some newValue ∧
      (r.IsDecrease = true ↔ oldValue > newValue) := by
  obtain ⟨T, a, b, x, y, _, _, _, hx, hy, rfl⟩ :=
    (mem_compareWarehouses env filePath oldDP newDP r).mp hr
  exact ⟨x, y, hx, hy, by simp⟩

theorem compareWarehouses_sizes_ranked_witness :
    ({ FilePath := "a/product.yaml (type: user)", FromSize := "SMALL", ToSize := "XSMALL",
       IsDecrease := true } : WarehouseChange) ∈
        compareWarehouses sampleEnv "a/product.yaml"
          (dataProductOf [{ Type_ := "user", Size := "SMALL" }])
          (dataProductOf [{ Type_ := "user", Size := "XSMALL" }]) ∧
      ∃ oldValue newValue, sampleEnv.WarehouseSizes "SMALL" = some oldValue ∧
        sampleEnv.WarehouseSizes "XSMALL" = some newValue ∧
        (true = true ↔ oldValue > newValue) :=
  ⟨by decide,
    compareWarehouses_sizes_ranked sampleEnv "a/product.yaml"
      (dataProductOf [{ Type_ := "user", Size := "SMALL" }])
      (dataProductOf [{ Type_ := "user", Size := "XSMALL" }])
      { FilePath := "a/product.yaml (type: user)", FromSize := "SMALL", ToSize := "XSMALL",
        IsDecrease := true } (by decide)⟩

/-- C2: `compareWarehouses filePath old new` contains exactly one record for each
warehouse type `T` that occurs in both snapshots with sizes that differ and are
both labels of the size ordinal table (the types listed, each once, by
`changedTypes`), and no other record; the record of `T` has `FilePath` equal to
`filePath` followed by `" (type: "`, `T` and `")"`, `FromSize` equal to the size
of `T` in `old` and `ToSize` equal to the size of `T` in `new` (the size of a
type in a snapshot being that of its last entry); and the number of records
equals the number of such types. -/
theorem compareWarehouses_one_record_per_changed_type (env : Env) (filePath : String)
    (oldDP newDP : DataProduct) :
    (∀ T, T ∈ changedTypes env oldDP newDP ↔
      T ∈ typesOf oldDP ∧ T ∈ typesOf newDP ∧
        ∃ oldSize newSize, sizeOfType oldDP.Warehouses T = some oldSize ∧
          sizeOfType newDP.Warehouses T = some newSize ∧ oldSize ≠ newSize ∧
          isLabel env oldSize = true ∧ isLabel env newSize = true) ∧
    (changedTypes env oldDP newDP).Nodup ∧
    (∀ T ∈ changedTypes env oldDP newDP, ∃ r,
      (compareWarehouses env filePath oldDP newDP).filter
          (fun r => decide (r.FilePath = filePath ++ " (type: " ++ T ++ ")")) = [r] ∧
        r.FilePath = filePath ++ " (type: " ++ T ++ ")" ∧
        sizeOfType oldDP.Warehouses T = some r.FromSize ∧
        sizeOfType newDP.Warehouses T = some r.ToSize) ∧
    (∀ r ∈ compareWarehouses env filePath oldDP newDP,
      ∃ T ∈ changedTypes env oldDP newDP, r.FilePath = filePath ++ " (type: " ++ T ++ ")") ∧
    (compareWarehouses env filePath oldDP newDP).length =
      (changedTypes env oldDP newDP).length := by
  refine ⟨mem_changedTypes env oldDP newDP, changedTypes_nodup env oldDP newDP, ?_, ?_, ?_⟩
  · intro T hT
    have hfp : locator filePath T ∈
        (compareWarehouses env filePath oldDP newDP).map (fun r => r.FilePath) :=
      (mem_map_FilePath env filePath oldDP newDP _).mpr (List.mem_map_of_mem _ hT)
    obtain ⟨r, hr, hrT⟩ := List.mem_map.mp hfp
    refine ⟨r, ?_, hrT, ?_, ?_⟩
    · have hs := filter_eq_singleton (fun r : WarehouseChange => r.FilePath) _
        (nodup_map_FilePath env filePath oldDP newDP) r hr
      simp only [hrT, locator] at hs
      exact hs
    · obtain ⟨T', a, b, x, y, h1, h2, _, _, _, rfl⟩ :=
        (mem_compareWarehouses env filePath oldDP newDP r).mp hr
      have := locator_injective filePath _ _ hrT
      subst this
      exact h1
    · obtain ⟨T', a, b, x, y, h1, h2, _, _, _, rfl⟩ :=
        (mem_compareWarehouses env filePath oldDP newDP r).mp hr
      have := locator_injective filePath _ _ hrT
      subst this
      exact h2
  · intro r hr
    have hfp := (mem_map_FilePath env filePath oldDP newDP _).mp (List.mem_map_of_mem _ hr)
    obtain ⟨T, hT, hrT⟩ := List.mem_map.mp hfp
    exact ⟨T, hT, hrT.symm⟩
  · have hperm : ((compareWarehouses env filePath oldDP newDP).map (fun r => r.FilePath)).Perm
        ((changedTypes env oldDP newDP).map (locator filePath)) :=
      (List.perm_ext_iff_of_nodup (nodup_map_FilePath env filePath oldDP newDP)
        (List.Nodup.map (fun T T' h => locator_injective filePath T T' h)
          (changedTypes_nodup env oldDP newDP))).mpr
        (mem_map_FilePath env filePath oldDP newDP)
    simpa using hperm.length_eq

/-- C3: if a warehouse type `T` occurs in only one of `old.Warehouses` and
`new.Warehouses` (added or removed), then no record returned by
`compareWarehouses` refers to `T`, whatever the size of `T` is. -/
theorem compareWarehouses_added_or_removed (env : Env) (filePath : String)
    (oldDP newDP : DataProduct) (T : String)
    (h : (T ∈ typesOf oldDP ∧ T ∉ typesOf newDP) ∨ (T ∉ typesOf oldDP ∧ T ∈ typesOf newDP)) :
    ∀ r ∈ compareWarehouses env filePath oldDP newDP,
      r.FilePath ≠ filePath ++ " (type: " ++ T ++ ")" := by
  intro r hr hfp
  obtain ⟨T', a, b, x, y, h1, h2, _, _, _, rfl⟩ :=
    (mem_compareWarehouses env filePath oldDP newDP r).mp hr
  have hT := locator_injective filePath _ _ hfp
  subst hT
  have hold : T' ∈ typesOf oldDP := by
    rw [typesOf, ← sizeOfType_isSome, h1]; rfl
  have hnew : T' ∈ typesOf newDP := by
    rw [typesOf, ← sizeOfType_isSome, h2]; rfl
  rcases h with ⟨_, hn⟩ | ⟨hn, _⟩
  · exact hn hnew
  · exact hn hold

theorem compareWarehouses_added_or_removed_witness :
    (("etl" ∈ typesOf (dataProductOf [{ Type_ := "user", Size := "SMALL" }]) ∧
        "etl" ∉ typesOf (dataProductOf [{ Type_ := "user", Size := "XSMALL" },
          { Type_ := "etl", Size := "LARGE" }])) ∨
      ("etl" ∉ typesOf (dataProductOf [{ Type_ := "user", Size := "SMALL" }]) ∧
        "etl" ∈ typesOf (dataProductOf [{ Type_ := "user", Size := "XSMALL" },
          { Type_ := "etl", Size := "LARGE" }]))) ∧
      ∀ r ∈ compareWarehouses sampleEnv "a/product.yaml"
          (dataProductOf [{ Type_ := "user", Size := "SMALL" }])
          (dataProductOf [{ Type_ := "user", Size := "XSMALL" },
            { Type_ := "etl", Size := "LARGE" }]),
        r.FilePath ≠ "a/product.yaml" ++ " (type: " ++ "etl" ++ ")" :=
  ⟨by decide,
    compareWarehouses_added_or_removed sampleEnv "a/product.yaml"
      (dataProductOf [{ Type_ := "user", Size := "SMALL" }])
      (dataProductOf [{ Type_ := "user", Size := "XSMALL" }, { Type_ := "etl", Size := "LARGE" }])
      "etl" (by decide)⟩

/-- C4: if a warehouse type `T` occurs in both snapshots (with size `oldSize` in
`old` and `newSize` in `new`, the sizes of its last entries) but `oldSize` or
`newSize` is not a label of the size ordinal table, then `compareWarehouses`,
a total function with no error result, returns no record for `T`. -/
theorem compareWarehouses_unrecognized_size (env : Env) (filePath : String)
    (oldDP newDP : DataProduct) (T oldSize newSize : String)
    (hold : sizeOfType oldDP.Warehouses T = some oldSize)
    (hnew : sizeOfType newDP.Warehouses T = some newSize)
    (h : isLabel env oldSize = false ∨ isLabel env newSize = false) :
    ∀ r ∈ compareWarehouses env filePath oldDP newDP,
      r.FilePath ≠ filePath ++ " (type: " ++ T ++ ")" := by
  intro r hr hfp
  obtain ⟨T', a, b, x, y, h1, h2, _, hx, hy, rfl⟩ :=
    (mem_compareWarehouses env filePath oldDP newDP r).mp hr
  have hT := locator_injective filePath _ _ hfp
  subst hT
  rw [hold] at h1
  rw [hnew] at h2
  cases h1
  cases h2
  rcases h with h | h
  · simp [isLabel, hx] at h
  · simp [isLabel, hy] at h

theorem compareWarehouses_unrecognized_size_witness :
    (sizeOfType (dataProductOf [{ Type_ := "user", Size := "SMALL" }]).Warehouses "user"
        = some "SMALL" ∧
      sizeOfType (dataProductOf [{ Type_ := "user", Size := "HUGE" }]).Warehouses "user"
        = some "HUGE" ∧
      (isLabel sampleEnv "SMALL" = false ∨ isLabel sampleEnv "HUGE" = false)) ∧
      ∀ r ∈ compareWarehouses sampleEnv "a/product.yaml"
          (dataProductOf [{ Type_ := "user", Size := "SMALL" }])
          (dataProductOf [{ Type_ := "user", Size := "HUGE" }]),
        r.FilePath ≠ "a/product.yaml" ++ " (type: " ++ "user" ++ ")" :=
  ⟨by decide,
    compareWarehouses_unrecognized_size sampleEnv "a/product.yaml"
      (dataProductOf [{ Type_ := "user", Size := "SMALL" }])
      (dataProductOf [{ Type_ := "user", Size := "HUGE" }])
      "user" "SMALL" "HUGE" (by decide) (by decide) (by decide)⟩

/-! ## Lemmas and theorems on `analyzeFileChange` -/

/-- Recording the calls changes neither the result nor the state the client is
left in. -/
theorem analyzeFileChange_recording {σ : Type} (env : Env) (client : GitLabClientInterface σ)
    (st : σ) (log : List Call) (projectID mrIID : Int) (filePath : String) :
    (analyzeFileChange env (recording client) (st, log) projectID mrIID filePath).1 =
        (analyzeFileChange env client st projectID mrIID filePath).1 ∧
      (analyzeFileChange env (recording client) (st, log) projectID mrIID filePath).2.1 =
        (analyzeFileChange env client st projectID mrIID filePath).2 := by
  unfold analyzeFileChange
  simp only [recording]
  rcases h1 : client.GetMRTargetBranch st projectID mrIID with ⟨r1, st1⟩
  cases r1 with
  | error e => simp
  | ok targetBranch =>
    simp only []
    rcases h2 : client.GetMRDetails st1 projectID mrIID with ⟨r2, st2⟩
    cases r2 with
    | error e => simp
    | ok mrDetails =>
      simp only []
      rcases h3 : client.FetchFileContent st2 projectID filePath targetBranch with ⟨r3, st3⟩
      rcases h4 : client.FetchFileContent st3
        (if mrDetails.SourceProjectID ≠ 0 ∧ mrDetails.SourceProjectID ≠ projectID then
          mrDetails.SourceProjectID else projectID) filePath mrDetails.SourceBranch
        with ⟨r4, st4⟩
      cases r3 <;> cases r4 <;> simp only [h4] <;> split <;> simp <;> split <;> simp

/-- C5: `analyzeFileChange` returns an error and no change list if and only if
`GetMRTargetBranch` fails, or `GetMRDetails` fails, or the fetch of the old
content fails with an error that is not not-found, or the fetch of the new
content fails with an error that is not not-found, or a fetched content that the
taken branch parses is malformed YAML; in every other case it returns a change
list and no error. -/
theorem analyzeFileChange_error_iff {σ : Type} (env : Env) (client : GitLabClientInterface σ)
    (st : σ) (projectID mrIID : Int) (filePath : String) :
    (((analyzeFileChange env client st projectID mrIID filePath).1.1 = none ∧
        (analyzeFileChange env client st projectID mrIID filePath).1.2 ≠ none) ↔
      analysisFailure env (callsOfAnalyzeFileChange env client st projectID mrIID filePath)) ∧
    (¬ analysisFailure env (callsOfAnalyzeFileChange env client st projectID mrIID filePath) →
      (analyzeFileChange env client st projectID mrIID filePath).1.1 ≠ none ∧
        (analyzeFileChange env client st projectID mrIID filePath).1.2 = none) := by
  unfold callsOfAnalyzeFileChange analysisFailure analyzeFileChange
  simp only [recording]
  rcases h1 : client.GetMRTargetBranch st projectID mrIID with ⟨r1, st1⟩
  cases r1 with
  | error e => simp [targetBranchFailed]
  | ok targetBranch =>
    simp only []
    rcases h2 : client.GetMRDetails st1 projectID mrIID with ⟨r2, st2⟩
    cases r2 with
    | error e => simp [detailsFailed]
    | ok mrDetails =>
      simp only []
      rcases h3 : client.FetchFileContent st2 projectID filePath targetBranch with ⟨r3, st3⟩
      rcases h4 : client.FetchFileContent st3
        (if mrDetails.SourceProjectID ≠ 0 ∧ mrDetails.SourceProjectID ≠ projectID then
          mrDetails.SourceProjectID else projectID) filePath mrDetails.SourceBranch
        with ⟨r4, st4⟩
      cases r3 <;> cases r4 <;> simp only [h4]
      · rename_i e1 e2
        by_cases hn1 : stringsContains e1 "file not found" = true <;>
          by_cases hn2 : stringsContains e2 "file not found" = true <;>
          simp [targetBranchFailed, detailsFailed, oldFetchFailed, newFetchFailed, parseFailed,
            parsedContents, fetchResults, isNotFound, hn1, hn2]
      · rename_i e1 newContent
        by_cases hn1 : stringsContains e1 "file not found" = true <;>
          cases hp : env.yamlUnmarshal newContent.Content <;>
          simp [targetBranchFailed, detailsFailed, oldFetchFailed, newFetchFailed, parseFailed,
            parsedContents, fetchResults, isNotFound, isMalformed, parseDataProduct, hn1, hp]
      · rename_i oldContent e2
        by_cases hn2 : stringsContains e2 "file not found" = true <;>
          cases hp : env.yamlUnmarshal oldContent.Content <;>
          simp [targetBranchFailed, detailsFailed, oldFetchFailed, newFetchFailed, parseFailed,
            parsedContents, fetchResults, isNotFound, isMalformed, parseDataProduct, hn2, hp]
      · rename_i oldContent newContent
        cases hp : env.yamlUnmarshal oldContent.Content <;>
          cases hq : env.yamlUnmarshal newContent.Content <;>
          simp [targetBranchFailed, detailsFailed, oldFetchFailed, newFetchFailed, parseFailed,
            parsedContents, fetchResults, isNotFound, isMalformed, parseDataProduct, hp, hq]

/-- C8: in `analyzeFileChange projectID mrIID filePath`, the old content is
fetched from project `projectID` at the branch returned by `GetMRTargetBranch`,
and the new content is fetched at the source branch of the merge request, from
project `SourceProjectID` when it is non-zero and differs from `projectID`, and
from `projectID` otherwise: these are the only fetches, the second being made
unless the first fails with an error that is not not-found. -/
theorem analyzeFileChange_fetch_coordinates {σ : Type} (env : Env)
    (client : GitLabClientInterface σ) (st : σ) (projectID mrIID : Int) (filePath : String)
    (targetBranch : String) (mrDetails : MRDetails)
    (hbranch : Call.GetMRTargetBranch projectID mrIID (.ok targetBranch) ∈
      callsOfAnalyzeFileChange env client st projectID mrIID filePath)
    (hdetails : Call.GetMRDetails projectID mrIID (.ok mrDetails) ∈
      callsOfAnalyzeFileChange env client st projectID mrIID filePath) :
    (oldFetchFailed (callsOfAnalyzeFileChange env client st projectID mrIID filePath) = true ∧
      fetchCalls (callsOfAnalyzeFileChange env client st projectID mrIID filePath) =
        [(projectID, filePath, targetBranch)]) ∨
    (oldFetchFailed (callsOfAnalyzeFileChange env client st projectID mrIID filePath) = false ∧
      fetchCalls (callsOfAnalyzeFileChange env client st projectID mrIID filePath) =
        [(projectID, filePath, targetBranch),
          (if mrDetails.SourceProjectID ≠ 0 ∧ mrDetails.SourceProjectID ≠ projectID then
              mrDetails.SourceProjectID
            else projectID,
            filePath, mrDetails.SourceBranch)]) := by
  unfold callsOfAnalyzeFileChange analyzeFileChange at hbranch hdetails ⊢
  simp only [recording] at hbranch hdetails ⊢
  rcases h1 : client.GetMRTargetBranch st projectID mrIID with ⟨r1, st1⟩
  simp only [h1] at hbranch hdetails
  cases r1 with
  | error e => simp at hbranch
  | ok targetBranch' =>
    simp only [] at hbranch hdetails ⊢
    rcases h2 : client.GetMRDetails st1 projectID mrIID with ⟨r2, st2⟩
    simp only [h2] at hbranch hdetails
    cases r2 with
    | error e => simp at hdetails
    | ok mrDetails' =>
      simp only [] at hbranch hdetails ⊢
      rcases h3 : client.FetchFileContent st2 projectID filePath targetBranch' with ⟨r3, st3⟩
      rcases h4 : client.FetchFileContent st3
        (if mrDetails'.SourceProjectID ≠ 0 ∧ mrDetails'.SourceProjectID ≠ projectID then
          mrDetails'.SourceProjectID else projectID) filePath mrDetails'.SourceBranch
        with ⟨r4, st4⟩
      simp only [h3, h4] at hbranch hdetails
      cases r3 <;> cases r4 <;> simp only [h4] at hbranch hdetails ⊢
      · rename_i e1 e2
        by_cases hn1 : stringsContains e1 "file not found" = true <;>
          by_cases hn2 : stringsContains e2 "file not found" = true <;>
          simp [hn1, hn2] at hbranch hdetails <;>
          simp [oldFetchFailed, fetchResults, fetchCalls, isNotFound, hn1, hn2, hbranch, hdetails]
      · rename_i e1 newContent
        by_cases hn1 : stringsContains e1 "file not found" = true <;>
          cases hp : parseDataProduct env newContent.Content <;>
          simp [hn1, hp] at hbranch hdetails <;>
          simp [oldFetchFailed, fetchResults, fetchCalls, isNotFound, hn1, hp, hbranch, hdetails]
      · rename_i oldContent e2
        by_cases hn2 : stringsContains e2 "file not found" = true <;>
          cases hp : parseDataProduct env oldContent.Content <;>
          simp [hn2, hp] at hbranch hdetails <;>
          simp [oldFetchFailed, fetchResults, fetchCalls, isNotFound, hn2, hp, hbranch, hdetails]
      · rename_i oldContent newContent
        cases hp : parseDataProduct env oldContent.Content <;>
          cases hq : parseDataProduct env newContent.Content <;>
          simp [hp, hq] at hbranch hdetails <;>
          simp [oldFetchFailed, fetchResults, fetchCalls, isNotFound, hp, hq, hbranch, hdetails]

theorem analyzeFileChange_fetch_coordinates_witness :
    (Call.GetMRTargetBranch 1 8 (.ok "main") ∈
        callsOfAnalyzeFileChange sampleEnv sampleClient () 1 8 "b/product.yaml" ∧
      Call.GetMRDetails 1 8 (.ok { SourceProjectID := 42, SourceBranch := "feature" }) ∈
        callsOfAnalyzeFileChange sampleEnv sampleClient () 1 8 "b/product.yaml") ∧
    ((oldFetchFailed (callsOfAnalyzeFileChange sampleEnv sampleClient () 1 8 "b/product.yaml")
          = true ∧
        fetchCalls (callsOfAnalyzeFileChange sampleEnv sampleClient () 1 8 "b/product.yaml") =
          [(1, "b/product.yaml", "main")]) ∨
      (oldFetchFailed (callsOfAnalyzeFileChange sampleEnv sampleClient () 1 8 "b/product.yaml")
          = false ∧
        fetchCalls (callsOfAnalyzeFileChange sampleEnv sampleClient () 1 8 "b/product.yaml") =
          [(1, "b/product.yaml", "main"),
            (if (42 : Int) ≠ 0 ∧ (42 : Int) ≠ 1 then 42 else 1, "b/product.yaml", "feature")])) :=
  ⟨by decide,
    analyzeFileChange_fetch_coordinates sampleEnv sampleClient () 1 8 "b/product.yaml" "main"
      { SourceProjectID := 42, SourceBranch := "feature" } (by decide) (by decide)⟩

/-- C9: when the fetch of the old content fails with not-found and the fetch of
the new content also fails with not-found, `analyzeFileChange` returns an empty
change list and no error; it does so whatever the YAML decoder is (even one
that rejects every content): nothing is parsed. -/
theorem analyzeFileChange_both_not_found {σ : Type} (env : Env)
    (client : GitLabClientInterface σ) (st : σ) (projectID mrIID : Int) (filePath : String)
    (oldErr newErr : String)
    (hfetch : fetchResults (callsOfAnalyzeFileChange env client st projectID mrIID filePath) =
      [.error oldErr, .error newErr])
    (hold : isNotFound oldErr = true) (hnew : isNotFound newErr = true) :
    ∀ env' : Env,
      (analyzeFileChange env' client st projectID mrIID filePath).1 = (some [], none) := by
  intro env'
  unfold callsOfAnalyzeFileChange analyzeFileChange at hfetch
  unfold analyzeFileChange
  simp only [recording] at hfetch
  rcases h1 : client.GetMRTargetBranch st projectID mrIID with ⟨r1, st1⟩
  simp only [h1] at hfetch
  cases r1 with
  | error e => simp [fetchResults] at hfetch
  | ok targetBranch =>
    simp only [] at hfetch ⊢
    rcases h2 : client.GetMRDetails st1 projectID mrIID with ⟨r2, st2⟩
    simp only [h2] at hfetch
    cases r2 with
    | error e => simp [fetchResults] at hfetch
    | ok mrDetails =>
      simp only [] at hfetch ⊢
      rcases h3 : client.FetchFileContent st2 projectID filePath targetBranch with ⟨r3, st3⟩
      rcases h4 : client.FetchFileContent st3
        (if mrDetails.SourceProjectID ≠ 0 ∧ mrDetails.SourceProjectID ≠ projectID then
          mrDetails.SourceProjectID else projectID) filePath mrDetails.SourceBranch
        with ⟨r4, st4⟩
      simp only [h3, h4] at hfetch
      cases r3 <;> cases r4 <;> simp only [h4] at hfetch ⊢
      · rename_i e1 e2
        by_cases hn1 : stringsContains e1 "file not found" = true <;>
          by_cases hn2 : stringsContains e2 "file not found" = true <;>
          simp [fetchResults, hn1, hn2] at hfetch <;>
          simp_all [isNotFound]
      · rename_i e1 newContent
        by_cases hn1 : stringsContains e1 "file not found" = true <;>
          cases hp : parseDataProduct env newContent.Content <;>
          simp [fetchResults, hn1, hp] at hfetch
      · rename_i oldContent e2
        by_cases hn2 : stringsContains e2 "file not found" = true <;>
          cases hp : parseDataProduct env oldContent.Content <;>
          simp [fetchResults, hn2, hp] at hfetch
      · rename_i oldContent newContent
        cases hp : parseDataProduct env oldContent.Content <;>
          cases hq : parseDataProduct env newContent.Content <;>
          simp [fetchResults, hp, hq] at hfetch

theorem analyzeFileChange_both_not_found_witness :
    (fetchResults (callsOfAnalyzeFileChange sampleEnv sampleClient () 1 7 "gone/product.yaml") =
        [.error "404 file not found", .error "404 file not found"] ∧
      isNotFound "404 file not found" = true ∧ isNotFound "404 file not found" = true) ∧
    ∀ env' : Env,
      (analyzeFileChange env' sampleClient () 1 7 "gone/product.yaml").1 = (some [], none) :=
  ⟨by decide,
    analyzeFileChange_both_not_found sampleEnv sampleClient () 1 7 "gone/product.yaml"
      "404 file not found" "404 file not found" (by decide) (by decide) (by decide)⟩

/-- C10: when the fetch of the old content succeeds and the fetch of the new
content fails with not-found, `analyzeFileChange` treats the new side as a
resource with no warehouses: it returns
`compareWarehouses filePath (parsed old) (empty resource)` when the old content
parses, and an error and no change list when the old content is malformed. -/
theorem analyzeFileChange_deleted_on_source {σ : Type} (env : Env)
    (client : GitLabClientInterface σ) (st : σ) (projectID mrIID : Int) (filePath : String)
    (oldContent : FileContent) (newErr : String)
    (hfetch : fetchResults (callsOfAnalyzeFileChange env client st projectID mrIID filePath) =
      [.ok oldContent, .error newErr])
    (hnew : isNotFound newErr = true) :
    emptyDataProduct.Warehouses = [] ∧
    (analyzeFileChange env client st projectID mrIID filePath).1 =
      match env.yamlUnmarshal oldContent.Content with
      | .ok oldDP => (some (compareWarehouses env filePath oldDP emptyDataProduct), none)
      | .error err =>
        (none,
          some ("failed to parse old YAML for deleted file: " ++ ("YAML parsing error: " ++ err))) := by
  refine ⟨rfl, ?_⟩
  unfold callsOfAnalyzeFileChange analyzeFileChange at hfetch
  unfold analyzeFileChange
  simp only [recording] at hfetch
  rcases h1 : client.GetMRTargetBranch st projectID mrIID with ⟨r1, st1⟩
  simp only [h1] at hfetch
  cases r1 with
  | error e => simp [fetchResults] at hfetch
  | ok targetBranch =>
    simp only [] at hfetch ⊢
    rcases h2 : client.GetMRDetails st1 projectID mrIID with ⟨r2, st2⟩
    simp only [h2] at hfetch
    cases r2 with
    | error e => simp [fetchResults] at hfetch
    | ok mrDetails =>
      simp only [] at hfetch ⊢
      rcases h3 : client.FetchFileContent st2 projectID filePath targetBranch with ⟨r3, st3⟩
      rcases h4 : client.FetchFileContent st3
        (if mrDetails.SourceProjectID ≠ 0 ∧ mrDetails.SourceProjectID ≠ projectID then
          mrDetails.SourceProjectID else projectID) filePath mrDetails.SourceBranch
        with ⟨r4, st4⟩
      simp only [h3, h4] at hfetch
      cases r3 <;> cases r4 <;> simp only [h4] at hfetch ⊢
      · rename_i e1 e2
        by_cases hn1 : stringsContains e1 "file not found" = true <;>
          by_cases hn2 : stringsContains e2 "file not found" = true <;>
          simp [fetchResults, hn1, hn2] at hfetch
      · rename_i e1 newContent
        by_cases hn1 : stringsContains e1 "file not found" = true <;>
          cases hp : parseDataProduct env newContent.Content <;>
          simp [fetchResults, hn1, hp] at hfetch
      · rename_i oldContent' e2
        by_cases hn2 : stringsContains e2 "file not found" = true <;>
          cases hp : env.yamlUnmarshal oldContent'.Content <;>
          simp [fetchResults, parseDataProduct, hn2, hp] at hfetch <;>
          simp_all [isNotFound, parseDataProduct]
      · rename_i oldContent' newContent
        cases hp : parseDataProduct env oldContent'.Content <;>
          cases hq : parseDataProduct env newContent.Content <;>
          simp [fetchResults, hp, hq] at hfetch

theorem analyzeFileChange_deleted_on_source_witness :
    (fetchResults
          (callsOfAnalyzeFileChange sampleEnv sampleClient () 1 7 "deleted/product.yaml") =
        [.ok { Content := "warehouses:\n- type: user\n  size: SMALL\n" },
          .error "404 file not found"] ∧
      isNotFound "404 file not found" = true) ∧
    (emptyDataProduct.Warehouses = [] ∧
      (analyzeFileChange sampleEnv sampleClient () 1 7 "deleted/product.yaml").1 =
        match sampleEnv.yamlUnmarshal
            (FileContent.mk "warehouses:\n- type: user\n  size: SMALL\n").Content with
        | .ok oldDP =>
          (some (compareWarehouses sampleEnv "deleted/product.yaml" oldDP emptyDataProduct), none)
        | .error err =>
          (none,
            some ("failed to parse old YAML for deleted file: " ++
              ("YAML parsing error: " ++ err)))) :=
  ⟨by decide,
    analyzeFileChange_deleted_on_source sampleEnv sampleClient () 1 7 "deleted/product.yaml"
      { Content := "warehouses:\n- type: user\n  size: SMALL\n" } "404 file not found"
      (by decide) (by decide)⟩

/-! ## Lemmas and theorems on `AnalyzeChanges` -/

theorem analyzeChangesLoop_cons {σ : Type} (env : Env) (client : GitLabClientInterface σ)
    (projectID mrIID : Int) (change : FileChange) (changes : List FileChange) (st : σ)
    (warehouseChanges : List WarehouseChange) :
    analyzeChangesLoop env client projectID mrIID (change :: changes) st warehouseChanges =
      if change.DeletedFile then
        analyzeChangesLoop env client projectID mrIID changes st warehouseChanges
      else if !env.IsDataProductFile change.NewPath then
        analyzeChangesLoop env client projectID mrIID changes st warehouseChanges
      else
        match analyzeFileChange env client st projectID mrIID change.NewPath with
        | ((_, some err), st1) =>
          ((none, some ("failed to analyze file " ++ change.NewPath ++ ": " ++ err)), st1)
        | ((some fileChanges, none), st1) =>
          analyzeChangesLoop env client projectID mrIID changes st1
            (warehouseChanges ++ fileChanges)
        | ((none, none), st1) =>
          analyzeChangesLoop env client projectID mrIID changes st1 warehouseChanges := by
  rw [analyzeChangesLoop]

/-- When the loop runs through `pre` without failure, it goes on with the rest
from the state and the records reached. -/
theorem analyzeChangesLoop_append {σ : Type} (env : Env) (client : GitLabClientInterface σ)
    (projectID mrIID : Int) (pre post : List FileChange) (st st1 : σ)
    (acc acc1 : List WarehouseChange)
    (hpre : analyzeChangesLoop env client projectID mrIID pre st acc = ((some acc1, none), st1)) :
    analyzeChangesLoop env client projectID mrIID (pre ++ post) st acc =
      analyzeChangesLoop env client projectID mrIID post st1 acc1 := by
  induction pre generalizing st acc with
  | nil =>
    simp only [analyzeChangesLoop, Prod.mk.injEq, Option.some.injEq, and_true] at hpre
    rw [List.nil_append, hpre.1, hpre.2]
  | cons change pre ih =>
    rw [List.cons_append, analyzeChangesLoop_cons]
    rw [analyzeChangesLoop_cons] at hpre
    by_cases hdel : change.DeletedFile = true
    · simp only [hdel, if_true] at hpre ⊢
      exact ih _ _ hpre
    · simp only [hdel, Bool.false_eq_true, if_false] at hpre ⊢
      by_cases hdom : env.IsDataProductFile change.NewPath = true
      · simp only [hdom, Bool.not_true, Bool.false_eq_true, if_false] at hpre ⊢
        rcases hres : analyzeFileChange env client st projectID mrIID change.NewPath with
          ⟨⟨res, err⟩, st2⟩
        rw [hres] at hpre
        cases err with
        | some e => simp at hpre
        | none =>
          cases res with
          | some fileChanges =>
            simp only [] at hpre ⊢
            exact ih _ _ hpre
          | none =>
            simp only [] at hpre ⊢
            exact ih _ _ hpre
      · simp only [hdom, Bool.not_false, if_true] at hpre ⊢
        exact ih _ _ hpre

/-- The loop stops at a non-deleted in-domain file whose analysis fails. -/
theorem analyzeChangesLoop_fail {σ : Type} (env : Env) (client : GitLabClientInterface σ)
    (projectID mrIID : Int) (change : FileChange) (post : List FileChange) (st st1 : σ)
    (acc : List WarehouseChange) (res : Option (List WarehouseChange)) (err : String)
    (hdel : change.DeletedFile = false) (hdom : env.IsDataProductFile change.NewPath = true)
    (hfail : analyzeFileChange env client st projectID mrIID change.NewPath =
      ((res, some err), st1)) :
    analyzeChangesLoop env client projectID mrIID (change :: post) st acc =
      ((none, some ("failed to analyze file " ++ change.NewPath ++ ": " ++ err)), st1) := by
  rw [analyzeChangesLoop_cons]
  simp only [hdel, Bool.false_eq_true, if_false, hdom, Bool.not_true, hfail]

theorem stringsContainsAux_of_isPrefixOf (substr l : List Char)
    (h : substr.isPrefixOf l = true) : stringsContainsAux substr l = true := by
  cases l <;> simp [stringsContainsAux, h]

theorem stringsContainsAux_append (substr pre suf : List Char) :
    stringsContainsAux substr (pre ++ (substr ++ suf)) = true := by
  induction pre with
  | nil =>
    apply stringsContainsAux_of_isPrefixOf
    rw [List.nil_append, List.isPrefixOf_iff_prefix]
    exact List.prefix_append _ _
  | cons c pre ih => simp [stringsContainsAux, ih]

/-- A message built around a path contains the path. -/
theorem stringsContains_append (a path b : String) :
    stringsContains (a ++ path ++ b) path = true := by
  unfold stringsContains
  rw [String.data_append, String.data_append, List.append_assoc]
  exact stringsContainsAux_append _ _ _

/-- C6: if the analysis of a non-deleted in-domain file fails (the files before
it having been processed without failure, since `AnalyzeChanges` stops at the
first failure), `AnalyzeChanges` returns no change list and an error naming the
path of that file: it does not return a successful change list without the
records of that file. -/
theorem AnalyzeChanges_propagates_failure {σ : Type} (env : Env)
    (client : GitLabClientInterface σ) (st st1 st2 : σ) (projectID mrIID : Int)
    (pre post : List FileChange) (change : FileChange) (acc : List WarehouseChange)
    (res : Option (List WarehouseChange)) (err : String)
    (hpre : AnalyzeChanges env client st projectID mrIID pre = ((some acc, none), st1))
    (hdel : change.DeletedFile = false) (hdom : env.IsDataProductFile change.NewPath = true)
    (hfail : analyzeFileChange env client st1 projectID mrIID change.NewPath =
      ((res, some err), st2)) :
    (AnalyzeChanges env client st projectID mrIID (pre ++ change :: post)).1 =
        (none, some ("failed to analyze file " ++ change.NewPath ++ ": " ++ err)) ∧
      stringsContains ("failed to analyze file " ++ change.NewPath ++ ": " ++ err)
        change.NewPath = true := by
  constructor
  · unfold AnalyzeChanges at hpre ⊢
    rw [analyzeChangesLoop_append env client projectID mrIID pre (change :: post) st st1 [] acc
      hpre, analyzeChangesLoop_fail env client projectID mrIID change post st1 st2 acc res err
      hdel hdom hfail]
  · rw [String.append_assoc]
    exact stringsContains_append _ _ _

theorem AnalyzeChanges_propagates_failure_witness :
    (AnalyzeChanges sampleEnv sampleClient () 1 7
          [{ NewPath := "README.md", DeletedFile := false },
            { NewPath := "b/product.yaml", DeletedFile := false }] =
        ((some [{ FilePath := "b/product.yaml (type: user)", FromSize := "SMALL",
                  ToSize := "XSMALL", IsDecrease := true }], none), ()) ∧
      (FileChange.mk "bad/product.yaml" false).DeletedFile = false ∧
      sampleEnv.IsDataProductFile (FileChange.mk "bad/product.yaml" false).NewPath = true ∧
      analyzeFileChange sampleEnv sampleClient () 1 7
          (FileChange.mk "bad/product.yaml" false).NewPath =
        ((none, some "failed to parse old YAML: YAML parsing error: yaml: unmarshal errors"),
          ())) ∧
    ((AnalyzeChanges sampleEnv sampleClient () 1 7
          ([{ NewPath := "README.md", DeletedFile := false },
              { NewPath := "b/product.yaml", DeletedFile := false }] ++
            FileChange.mk "bad/product.yaml" false ::
              [{ NewPath := "c/product.yaml", DeletedFile := false }])).1 =
        (none, some ("failed to analyze file " ++ (FileChange.mk "bad/product.yaml" false).NewPath
          ++ ": " ++ "failed to parse old YAML: YAML parsing error: yaml: unmarshal errors")) ∧
      stringsContains ("failed to analyze file " ++
          (FileChange.mk "bad/product.yaml" false).NewPath ++ ": " ++
          "failed to parse old YAML: YAML parsing error: yaml: unmarshal errors")
        (FileChange.mk "bad/product.yaml" false).NewPath = true) :=
  ⟨by decide,
    AnalyzeChanges_propagates_failure sampleEnv sampleClient () () () 1 7
      [{ NewPath := "README.md", DeletedFile := false },
        { NewPath := "b/product.yaml", DeletedFile := false }]
      [{ NewPath := "c/product.yaml", DeletedFile := false }]
      { NewPath := "bad/product.yaml", DeletedFile := false }
      [{ FilePath := "b/product.yaml (type: user)", FromSize := "SMALL", ToSize := "XSMALL",
         IsDecrease := true }]
      none "failed to parse old YAML: YAML parsing error: yaml: unmarshal errors"
      (by decide) (by decide) (by decide) (by decide)⟩

/-- C7, as stated, fails: with the changes `a/product.yaml` (whose analysis
fails) and `b/product.yaml` (whose analysis succeeds with one record),
`AnalyzeChanges` returns no change list, so that the record of `b/product.yaml`
is not produced, and `b/product.yaml` is never evaluated: the only call the
client receives for a file is the fetch of `a/product.yaml`. -/
theorem AnalyzeChanges_not_file_scoped :
    (analyzeFileChange sampleEnv sampleClient () 1 7 "a/product.yaml").1 =
        (none, some ("failed to fetch old file content from target project 1, branch main: " ++
          "500 Internal Server Error")) ∧
      (analyzeFileChange sampleEnv sampleClient () 1 7 "b/product.yaml").1 =
        (some [{ FilePath := "b/product.yaml (type: user)", FromSize := "SMALL",
                 ToSize := "XSMALL", IsDecrease := true }], none) ∧
      (AnalyzeChanges sampleEnv sampleClient () 1 7
          [{ NewPath := "a/product.yaml", DeletedFile := false },
            { NewPath := "b/product.yaml", DeletedFile := false }]).1 =
        (none, some ("failed to analyze file a/product.yaml: " ++
          "failed to fetch old file content from target project 1, branch main: " ++
          "500 Internal Server Error")) ∧
      fetchCalls (AnalyzeChanges sampleEnv (recording sampleClient) ((), []) 1 7
          [{ NewPath := "a/product.yaml", DeletedFile := false },
            { NewPath := "b/product.yaml", DeletedFile := false }]).2.2 =
        [(1, "a/product.yaml", "main")] := by
  decide

/-- C7, amended: `AnalyzeChanges` stops at the first non-deleted in-domain file
whose analysis fails.  It returns that error and no change list, the records
`acc` of the files analysed before being dropped, and the files `post` after it
are not evaluated: the journal of the calls of the whole run is the journal
`log2` reached at the end of the failing analysis, whatever `post` is. -/
theorem AnalyzeChanges_stops_at_first_failure {σ : Type} (env : Env)
    (client : GitLabClientInterface σ) (st st1 st2 : σ) (log1 log2 : List Call)
    (projectID mrIID : Int) (pre post : List FileChange) (change : FileChange)
    (acc : List WarehouseChange) (res : Option (List WarehouseChange)) (err : String)
    (hpre : AnalyzeChanges env (recording client) (st, []) projectID mrIID pre =
      ((some acc, none), (st1, log1)))
    (hdel : change.DeletedFile = false) (hdom : env.IsDataProductFile change.NewPath = true)
    (hfail : analyzeFileChange env (recording client) (st1, log1) projectID mrIID
      change.NewPath = ((res, some err), (st2, log2))) :
    AnalyzeChanges env (recording client) (st, []) projectID mrIID (pre ++ change :: post) =
      ((none, some ("failed to analyze file " ++ change.NewPath ++ ": " ++ err)),
        (st2, log2)) := by
  unfold AnalyzeChanges at hpre ⊢
  rw [analyzeChangesLoop_append env (recording client) projectID mrIID pre (change :: post)
    (st, []) (st1, log1) [] acc hpre]
  exact analyzeChangesLoop_fail env (recording client) projectID mrIID change post (st1, log1)
    (st2, log2) acc res err hdel hdom hfail

theorem AnalyzeChanges_stops_at_first_failure_witness :
    (AnalyzeChanges sampleEnv (recording sampleClient) ((), []) 1 7
          [{ NewPath := "b/product.yaml", DeletedFile := false }] =
        ((some [{ FilePath := "b/product.yaml (type: user)", FromSize := "SMALL",
                  ToSize := "XSMALL", IsDecrease := true }], none), ((), sampleJournalB)) ∧
      (FileChange.mk "a/product.yaml" false).DeletedFile = false ∧
      sampleEnv.IsDataProductFile (FileChange.mk "a/product.yaml" false).NewPath = true ∧
      analyzeFileChange sampleEnv (recording sampleClient) ((), sampleJournalB) 1 7
          (FileChange.mk "a/product.yaml" false).NewPath =
        ((none, some ("failed to fetch old file content from target project 1, branch main: " ++
          "500 Internal Server Error")), ((), sampleJournalBA))) ∧
    AnalyzeChanges sampleEnv (recording sampleClient) ((), []) 1 7
        ([{ NewPath := "b/product.yaml", DeletedFile := false }] ++
          FileChange.mk "a/product.yaml" false ::
            [{ NewPath := "b/product.yaml", DeletedFile := false }]) =
      ((none, some ("failed to analyze file " ++ (FileChange.mk "a/product.yaml" false).NewPath
        ++ ": " ++ ("failed to fetch old file content from target project 1, branch main: " ++
          "500 Internal Server Error"))), ((), sampleJournalBA)) :=
  ⟨by decide,
    AnalyzeChanges_stops_at_first_failure sampleEnv sampleClient () () () sampleJournalB
      sampleJournalBA 1 7
      [{ NewPath := "b/product.yaml", DeletedFile := false }]
      [{ NewPath := "b/product.yaml", DeletedFile := false }]
      { NewPath := "a/product.yaml", DeletedFile := false }
      [{ FilePath := "b/product.yaml (type: user)", FromSize := "SMALL", ToSize := "XSMALL",
         IsDecrease := true }]
      none ("failed to fetch old file content from target project 1, branch main: " ++
        "500 Internal Server Error")
      (by decide) (by decide) (by decide) (by decide)⟩

/-! ## More theorems on `compareWarehouses` -/

/-- C11: for every file path and every data product `D` (including one with
duplicated warehouse types or unrecognized size labels),
`compareWarehouses path D D` is the empty list. -/
theorem compareWarehouses_self (env : Env) (filePath : String) (D : DataProduct) :
    compareWarehouses env filePath D D = [] := by
  rw [List.eq_nil_iff_forall_not_mem]
  intro r hr
  obtain ⟨T, a, b, x, y, h1, h2, hne, _, _, _⟩ :=
    (mem_compareWarehouses env filePath D D r).mp hr
  rw [h1] at h2
  exact hne (Option.some.inj h2)

theorem sizeOfType_cons (wh : Warehouse) (ws : List Warehouse) (T : String) :
    sizeOfType (wh :: ws) T =
      match sizeOfType ws T with
      | some s => some s
      | none => if wh.Type_ = T then some wh.Size else none := by
  simp only [sizeOfType, List.reverse_cons, List.find?_append]
  cases hf : List.find? (fun wh => decide (wh.Type_ = T)) ws.reverse with
  | some x => simp
  | none => by_cases hw : wh.Type_ = T <;> simp [hw]

theorem sizeOfType_keepLast (ws : List Warehouse) (T : String) :
    sizeOfType (keepLast ws) T = sizeOfType ws T := by
  induction ws with
  | nil => rfl
  | cons wh ws ih =>
    unfold keepLast
    by_cases hany : ws.any (fun wh' => decide (wh'.Type_ = wh.Type_)) = true
    · simp only [hany, if_true, ih, sizeOfType_cons]
      cases hs : sizeOfType ws T with
      | some s => rfl
      | none =>
        have hT : T ∉ ws.map (fun wh => wh.Type_) := (sizeOfType_eq_none ws T).mp hs
        by_cases hw : wh.Type_ = T
        · exfalso
          apply hT
          rw [List.any_eq_true] at hany
          obtain ⟨wh', hmem, hty⟩ := hany
          rw [decide_eq_true_eq] at hty
          exact List.mem_map.mpr ⟨wh', hmem, hty.trans hw⟩
        · simp [hw]
    · simp only [hany, Bool.false_eq_true, if_false, sizeOfType_cons, ih]

theorem keepLast_sublist (ws : List Warehouse) : (keepLast ws).Sublist ws := by
  induction ws with
  | nil => exact List.Sublist.slnil
  | cons wh ws ih =>
    unfold keepLast
    split
    · exact ih.cons wh
    · exact ih.cons₂ wh

theorem keepLast_nodup (ws : List Warehouse) :
    ((keepLast ws).map (fun wh => wh.Type_)).Nodup := by
  induction ws with
  | nil => exact List.nodup_nil
  | cons wh ws ih =>
    unfold keepLast
    by_cases hany : ws.any (fun wh' => decide (wh'.Type_ = wh.Type_)) = true
    · simp only [hany, if_true]
      exact ih
    · simp only [hany, Bool.false_eq_true, if_false, List.map_cons, List.nodup_cons]
      refine ⟨?_, ih⟩
      intro hmem
      apply hany
      obtain ⟨wh', hmem', hty⟩ := List.mem_map.mp hmem
      rw [List.any_eq_true]
      exact ⟨wh', (keepLast_sublist ws).subset hmem', by simpa using hty⟩

/-- The records of `compareWarehouses` depend on the two snapshots only through
the size each gives to each type. -/
theorem compareWarehouses_perm_of_sizeOfType (env : Env) (filePath : String)
    (oldDP newDP oldDP' newDP' : DataProduct)
    (hold : ∀ T, sizeOfType oldDP'.Warehouses T = sizeOfType oldDP.Warehouses T)
    (hnew : ∀ T, sizeOfType newDP'.Warehouses T = sizeOfType newDP.Warehouses T) :
    (compareWarehouses env filePath oldDP' newDP').Perm
      (compareWarehouses env filePath oldDP newDP) := by
  rw [List.perm_ext_iff_of_nodup
    (List.Nodup.of_map _ (nodup_map_FilePath env filePath oldDP' newDP'))
    (List.Nodup.of_map _ (nodup_map_FilePath env filePath oldDP newDP))]
  intro r
  simp only [mem_compareWarehouses, hold, hnew]

/-- C13: when a warehouse type occurs more than once in a snapshot,
`compareWarehouses` uses only the size of its last occurrence.  `keepLast ws`
keeps the entries of `ws` that no later entry of the same type follows (a
sublist of `ws` without duplicated types, giving every type the size of its last
entry in `ws`); replacing `old.Warehouses`, `new.Warehouses` or both by it
leaves the returned records unchanged: the same records, each as many times,
the order alone being free. -/
theorem compareWarehouses_last_occurrence_wins (env : Env) (filePath : String)
    (oldDP newDP : DataProduct) :
    (∀ ws : List Warehouse, (keepLast ws).Sublist ws ∧
      ((keepLast ws).map (fun wh => wh.Type_)).Nodup ∧
      ∀ T, sizeOfType (keepLast ws) T = sizeOfType ws T) ∧
    (compareWarehouses env filePath (withWarehouses oldDP (keepLast oldDP.Warehouses))
      newDP).Perm (compareWarehouses env filePath oldDP newDP) ∧
    (compareWarehouses env filePath oldDP
      (withWarehouses newDP (keepLast newDP.Warehouses))).Perm
        (compareWarehouses env filePath oldDP newDP) ∧
    (compareWarehouses env filePath (withWarehouses oldDP (keepLast oldDP.Warehouses))
      (withWarehouses newDP (keepLast newDP.Warehouses))).Perm
        (compareWarehouses env filePath oldDP newDP) ∧
    (∀ r, r ∈ compareWarehouses env filePath
        (withWarehouses oldDP (keepLast oldDP.Warehouses)) newDP ↔
      r ∈ compareWarehouses env filePath oldDP newDP) ∧
    (∀ r, r ∈ compareWarehouses env filePath oldDP
        (withWarehouses newDP (keepLast newDP.Warehouses)) ↔
      r ∈ compareWarehouses env filePath oldDP newDP) := by
  have h1 := compareWarehouses_perm_of_sizeOfType env filePath oldDP newDP
    (withWarehouses oldDP (keepLast oldDP.Warehouses)) newDP
    (fun T => sizeOfType_keepLast oldDP.Warehouses T) (fun _ => rfl)
  have h2 := compareWarehouses_perm_of_sizeOfType env filePath oldDP newDP
    oldDP (withWarehouses newDP (keepLast newDP.Warehouses))
    (fun _ => rfl) (fun T => sizeOfType_keepLast newDP.Warehouses T)
  have h3 := compareWarehouses_perm_of_sizeOfType env filePath oldDP newDP
    (withWarehouses oldDP (keepLast oldDP.Warehouses))
    (withWarehouses newDP (keepLast newDP.Warehouses))
    (fun T => sizeOfType_keepLast oldDP.Warehouses T)
    (fun T => sizeOfType_keepLast newDP.Warehouses T)
  exact ⟨fun ws => ⟨keepLast_sublist ws, keepLast_nodup ws, sizeOfType_keepLast ws⟩,
    h1, h2, h3, fun r => h1.mem_iff, fun r => h2.mem_iff⟩

/-- The size table of `sampleEnv` gives distinct labels distinct ordinals. -/
theorem sampleEnv_ordinals_distinct (a b : String) (x : Int)
    (ha : sampleEnv.WarehouseSizes a = some x) (hb : sampleEnv.WarehouseSizes b = some x) :
    a = b := by
  simp only [sampleEnv] at ha hb
  split_ifs at ha hb <;> simp_all <;> omega

/-- C12: for all size labels `a` and `b` both present in the size ordinal table
with `a ≠ b`, the `IsDecrease` flag `compareWarehouses` computes for a warehouse
`T` changing from `a` to `b` (one record, with flag `d`) is the negation of the
flag it computes for the same warehouse changing from `b` to `a`; and a
warehouse whose size goes from `a` to `a` is never reported as a decrease.  The
table is declared outside `analyzer.go`: it is taken to give distinct labels
distinct ordinals, as the total order of the specification requires. -/
theorem compareWarehouses_isDecrease_swap (env : Env)
    (hdistinct : ∀ (a b : String) (x : Int),
      env.WarehouseSizes a = some x → env.WarehouseSizes b = some x → a = b)
    (filePath T a b : String) (oldDP newDP : DataProduct)
    (ha : isLabel env a = true) (hb : isLabel env b = true) (hab : a ≠ b)
    (hold : sizeOfType oldDP.Warehouses T = some a)
    (hnew : sizeOfType newDP.Warehouses T = some b) :
    ∃ d : Bool,
      (∃ r ∈ compareWarehouses env filePath oldDP newDP,
        r.FilePath = filePath ++ " (type: " ++ T ++ ")") ∧
      (∀ r ∈ compareWarehouses env filePath oldDP newDP,
        r.FilePath = filePath ++ " (type: " ++ T ++ ")" →
          r.FromSize = a ∧ r.ToSize = b ∧ r.IsDecrease = d) ∧
      (∃ r ∈ compareWarehouses env filePath newDP oldDP,
        r.FilePath = filePath ++ " (type: " ++ T ++ ")") ∧
      (∀ r ∈ compareWarehouses env filePath newDP oldDP,
        r.FilePath = filePath ++ " (type: " ++ T ++ ")" →
          r.FromSize = b ∧ r.ToSize = a ∧ r.IsDecrease = !d) ∧
      (∀ D D' : DataProduct, sizeOfType D.Warehouses T = some a →
        sizeOfType D'.Warehouses T = some a →
        ∀ r ∈ compareWarehouses env filePath D D',
          ¬ (r.FilePath = filePath ++ " (type: " ++ T ++ ")" ∧ r.IsDecrease = true)) := by
  cases hx : env.WarehouseSizes a with
  | none => simp [isLabel, hx] at ha
  | some x =>
    cases hy : env.WarehouseSizes b with
    | none => simp [isLabel, hy] at hb
    | some y =>
      have hxy : x ≠ y := by
        intro h
        subst h
        exact hab (hdistinct a b x hx hy)
      refine ⟨decide (x > y), ?_, ?_, ?_, ?_, ?_⟩
      · exact ⟨_, (mem_compareWarehouses env filePath oldDP newDP _).mpr
          ⟨T, a, b, x, y, hold, hnew, hab, hx, hy, rfl⟩, rfl⟩
      · intro r hr hfp
        obtain ⟨T', a', b', x', y', h1, h2, _, hx', hy', rfl⟩ :=
          (mem_compareWarehouses env filePath oldDP newDP r).mp hr
        have hT := locator_injective filePath _ _ hfp
        subst hT
        rw [hold] at h1
        rw [hnew] at h2
        cases h1
        cases h2
        rw [hx] at hx'
        rw [hy] at hy'
        cases hx'
        cases hy'
        exact ⟨rfl, rfl, rfl⟩
      · exact ⟨_, (mem_compareWarehouses env filePath newDP oldDP _).mpr
          ⟨T, b, a, y, x, hnew, hold, fun h => hab h.symm, hy, hx, rfl⟩, rfl⟩
      · intro r hr hfp
        obtain ⟨T', a', b', x', y', h1, h2, _, hx', hy', rfl⟩ :=
          (mem_compareWarehouses env filePath newDP oldDP r).mp hr
        have hT := locator_injective filePath _ _ hfp
        subst hT
        rw [hnew] at h1
        rw [hold] at h2
        cases h1
        cases h2
        rw [hy] at hx'
        rw [hx] at hy'
        cases hx'
        cases hy'
        refine ⟨rfl, rfl, ?_⟩
        rcases lt_or_gt_of_ne hxy with h | h
        · simp [h, not_lt_of_lt h]
        · simp [h, not_lt_of_lt h]
      · intro D D' hD hD' r hr hfp
        obtain ⟨T', a', b', x', y', h1, h2, hne, _, _, rfl⟩ :=
          (mem_compareWarehouses env filePath D D' r).mp hr
        have hT := locator_injective filePath _ _ hfp.1
        subst hT
        rw [hD] at h1
        rw [hD'] at h2
        cases h1
        cases h2
        exact hne rfl

theorem compareWarehouses_isDecrease_swap_witness :
    ((∀ (a b : String) (x : Int), sampleEnv.WarehouseSizes a = some x →
        sampleEnv.WarehouseSizes b = some x → a = b) ∧
      isLabel sampleEnv "SMALL" = true ∧ isLabel sampleEnv "XSMALL" = true ∧
      "SMALL" ≠ "XSMALL" ∧
      sizeOfType (dataProductOf [{ Type_ := "user", Size := "SMALL" }]).Warehouses "user" =
        some "SMALL" ∧
      sizeOfType (dataProductOf [{ Type_ := "user", Size := "XSMALL" }]).Warehouses "user" =
        some "XSMALL") ∧
    ∃ d : Bool,
      (∃ r ∈ compareWarehouses sampleEnv "a/product.yaml"
          (dataProductOf [{ Type_ := "user", Size := "SMALL" }])
          (dataProductOf [{ Type_ := "user", Size := "XSMALL" }]),
        r.FilePath = "a/product.yaml" ++ " (type: " ++ "user" ++ ")") ∧
      (∀ r ∈ compareWarehouses sampleEnv "a/product.yaml"
          (dataProductOf [{ Type_ := "user", Size := "SMALL" }])
          (dataProductOf [{ Type_ := "user", Size := "XSMALL" }]),
        r.FilePath = "a/product.yaml" ++ " (type: " ++ "user" ++ ")" →
          r.FromSize = "SMALL" ∧ r.ToSize = "XSMALL" ∧ r.IsDecrease = d) ∧
      (∃ r ∈ compareWarehouses sampleEnv "a/product.yaml"
          (dataProductOf [{ Type_ := "user", Size := "XSMALL" }])
          (dataProductOf [{ Type_ := "user", Size := "SMALL" }]),
        r.FilePath = "a/product.yaml" ++ " (type: " ++ "user" ++ ")") ∧
      (∀ r ∈ compareWarehouses sampleEnv "a/product.yaml"
          (dataProductOf [{ Type_ := "user", Size := "XSMALL" }])
          (dataProductOf [{ Type_ := "user", Size := "SMALL" }]),
        r.FilePath = "a/product.yaml" ++ " (type: " ++ "user" ++ ")" →
          r.FromSize = "XSMALL" ∧ r.ToSize = "SMALL" ∧ r.IsDecrease = !d) ∧
      (∀ D D' : DataProduct, sizeOfType D.Warehouses "user" = some "SMALL" →
        sizeOfType D'.Warehouses "user" = some "SMALL" →
        ∀ r ∈ compareWarehouses sampleEnv "a/product.yaml" D D',
          ¬ (r.FilePath = "a/product.yaml" ++ " (type: " ++ "user" ++ ")" ∧
            r.IsDecrease = true)) :=
  ⟨⟨sampleEnv_ordinals_distinct, by decide, by decide, by decide, by decide, by decide⟩,
    compareWarehouses_isDecrease_swap sampleEnv sampleEnv_ordinals_distinct "a/product.yaml"
      "user" "SMALL" "XSMALL"
      (dataProductOf [{ Type_ := "user", Size := "SMALL" }])
      (dataProductOf [{ Type_ := "user", Size := "XSMALL" }])
      (by decide) (by decide) (by decide) (by decide) (by decide)⟩

/-! ## More theorems on `analyzeFileChange` -/

/-- C14, as stated, fails: on `a/product.yaml`, whose old content cannot be
fetched (an error that is not not-found), `analyzeFileChange` performs one
`FetchFileContent` call, not at least two. -/
theorem analyzeFileChange_one_fetch :
    (fetchCalls (callsOfAnalyzeFileChange sampleEnv sampleClient () 1 7 "a/product.yaml")).length
        = 1 ∧
      ¬ (2 ≤ (fetchCalls
            (callsOfAnalyzeFileChange sampleEnv sampleClient () 1 7 "a/product.yaml")).length ∧
          (fetchCalls
            (callsOfAnalyzeFileChange sampleEnv sampleClient () 1 7 "a/product.yaml")).length
            ≤ 3) := by
  decide

/-- C14, amended: every invocation of `analyzeFileChange` on a file performs at
most two `FetchFileContent` calls, whatever the client returns: none when
`GetMRTargetBranch` or `GetMRDetails` fails, one when the fetch of the old
content fails with an error that is not not-found, and exactly two in every
other case. -/
theorem analyzeFileChange_fetch_count {σ : Type} (env : Env) (client : GitLabClientInterface σ)
    (st : σ) (projectID mrIID : Int) (filePath : String) :
    (fetchCalls (callsOfAnalyzeFileChange env client st projectID mrIID filePath)).length ≤ 2 ∧
    (targetBranchFailed (callsOfAnalyzeFileChange env client st projectID mrIID filePath) = true ∨
      detailsFailed (callsOfAnalyzeFileChange env client st projectID mrIID filePath) = true →
      (fetchCalls (callsOfAnalyzeFileChange env client st projectID mrIID filePath)).length = 0) ∧
    (oldFetchFailed (callsOfAnalyzeFileChange env client st projectID mrIID filePath) = true →
      (fetchCalls (callsOfAnalyzeFileChange env client st projectID mrIID filePath)).length = 1) ∧
    (targetBranchFailed (callsOfAnalyzeFileChange env client st projectID mrIID filePath) = false →
      detailsFailed (callsOfAnalyzeFileChange env client st projectID mrIID filePath) = false →
      oldFetchFailed (callsOfAnalyzeFileChange env client st projectID mrIID filePath) = false →
      (fetchCalls (callsOfAnalyzeFileChange env client st projectID mrIID filePath)).length = 2) := by
  unfold callsOfAnalyzeFileChange analyzeFileChange
  simp only [recording]
  rcases h1 : client.GetMRTargetBranch st projectID mrIID with ⟨r1, st1⟩
  cases r1 with
  | error e => simp [targetBranchFailed, detailsFailed, oldFetchFailed, fetchResults, fetchCalls]
  | ok targetBranch =>
    simp only []
    rcases h2 : client.GetMRDetails st1 projectID mrIID with ⟨r2, st2⟩
    cases r2 with
    | error e => simp [targetBranchFailed, detailsFailed, oldFetchFailed, fetchResults, fetchCalls]
    | ok mrDetails =>
      simp only []
      rcases h3 : client.FetchFileContent st2 projectID filePath targetBranch with ⟨r3, st3⟩
      rcases h4 : client.FetchFileContent st3
        (if mrDetails.SourceProjectID ≠ 0 ∧ mrDetails.SourceProjectID ≠ projectID then
          mrDetails.SourceProjectID else projectID) filePath mrDetails.SourceBranch
        with ⟨r4, st4⟩
      cases r3 <;> cases r4 <;> simp only [h4]
      · rename_i e1 e2
        by_cases hn1 : stringsContains e1 "file not found" = true <;>
          by_cases hn2 : stringsContains e2 "file not found" = true <;>
          simp [targetBranchFailed, detailsFailed, oldFetchFailed, fetchResults, fetchCalls,
            isNotFound, hn1, hn2]
      · rename_i e1 newContent
        by_cases hn1 : stringsContains e1 "file not found" = true <;>
          cases hp : parseDataProduct env newContent.Content <;>
          simp [targetBranchFailed, detailsFailed, oldFetchFailed, fetchResults, fetchCalls,
            isNotFound, hn1, hp]
      · rename_i oldContent e2
        by_cases hn2 : stringsContains e2 "file not found" = true <;>
          cases hp : parseDataProduct env oldContent.Content <;>
          simp [targetBranchFailed, detailsFailed, oldFetchFailed, fetchResults, fetchCalls,
            isNotFound, hn2, hp]
      · rename_i oldContent newContent
        cases hp : parseDataProduct env oldContent.Content <;>
          cases hq : parseDataProduct env newContent.Content <;>
          simp [targetBranchFailed, detailsFailed, oldFetchFailed, fetchResults, fetchCalls,
            isNotFound, hp, hq]

theorem sizeOfType_nil (T : String) : sizeOfType [] T = none := rfl

/-- `compareWarehouses` returns no record when either snapshot has no
warehouses. -/
theorem compareWarehouses_empty_side (env : Env) (filePath : String)
    (oldDP newDP : DataProduct) (h : oldDP.Warehouses = [] ∨ newDP.Warehouses = []) :
    compareWarehouses env filePath oldDP newDP = [] := by
  rw [List.eq_nil_iff_forall_not_mem]
  intro r hr
  obtain ⟨T, a, b, x, y, h1, h2, _, _, _, _⟩ :=
    (mem_compareWarehouses env filePath oldDP newDP r).mp hr
  rcases h with h | h
  · rw [h, sizeOfType_nil] at h1
    cases h1
  · rw [h, sizeOfType_nil] at h2
    cases h2

/-- C20: whenever `analyzeFileChange` succeeds on a file that is new (the fetch
of the old content fails with not-found) or deleted on the source branch (the
fetch of the old content succeeds and that of the new content fails with
not-found), the change list it returns is empty, whatever warehouses and sizes
the existing side declares; more generally `compareWarehouses` returns the empty
list whenever either snapshot has no warehouses. -/
theorem analyzeFileChange_new_or_deleted_no_changes {σ : Type} (env : Env)
    (client : GitLabClientInterface σ) (st : σ) (projectID mrIID : Int) (filePath : String)
    (hside :
      (∃ oldErr rest,
        fetchResults (callsOfAnalyzeFileChange env client st projectID mrIID filePath) =
          .error oldErr :: rest ∧ isNotFound oldErr = true) ∨
      (∃ oldContent newErr,
        fetchResults (callsOfAnalyzeFileChange env client st projectID mrIID filePath) =
          [.ok oldContent, .error newErr] ∧ isNotFound newErr = true))
    (hsucc : (analyzeFileChange env client st projectID mrIID filePath).1.2 = none) :
    (analyzeFileChange env client st projectID mrIID filePath).1.1 = some [] ∧
      ∀ (path : String) (oldDP newDP : DataProduct),
        oldDP.Warehouses = [] ∨ newDP.Warehouses = [] →
          compareWarehouses env path oldDP newDP = [] := by
  refine ⟨?_, fun path oldDP newDP h => compareWarehouses_empty_side env path oldDP newDP h⟩
  have hold : ∀ newDP : DataProduct,
      compareWarehouses env filePath emptyDataProduct newDP = [] :=
    fun newDP => compareWarehouses_empty_side env filePath _ newDP (Or.inl rfl)
  have hnew : ∀ oldDP : DataProduct,
      compareWarehouses env filePath oldDP emptyDataProduct = [] :=
    fun oldDP => compareWarehouses_empty_side env filePath oldDP _ (Or.inr rfl)
  unfold callsOfAnalyzeFileChange analyzeFileChange at hside
  unfold analyzeFileChange at hsucc ⊢
  simp only [recording] at hside
  rcases h1 : client.GetMRTargetBranch st projectID mrIID with ⟨r1, st1⟩
  simp only [h1] at hside hsucc
  cases r1 with
  | error e => simp [fetchResults] at hside
  | ok targetBranch =>
    simp only [] at hside hsucc ⊢
    rcases h2 : client.GetMRDetails st1 projectID mrIID with ⟨r2, st2⟩
    simp only [h2] at hside hsucc
    cases r2 with
    | error e => simp [fetchResults] at hside
    | ok mrDetails =>
      simp only [] at hside hsucc ⊢
      rcases h3 : client.FetchFileContent st2 projectID filePath targetBranch with ⟨r3, st3⟩
      rcases h4 : client.FetchFileContent st3
        (if mrDetails.SourceProjectID ≠ 0 ∧ mrDetails.SourceProjectID ≠ projectID then
          mrDetails.SourceProjectID else projectID) filePath mrDetails.SourceBranch
        with ⟨r4, st4⟩
      simp only [h3, h4] at hside hsucc
      cases r3 <;> cases r4 <;> simp only [h4] at hside hsucc ⊢
      · rename_i e1 e2
        by_cases hn1 : stringsContains e1 "file not found" = true <;>
          by_cases hn2 : stringsContains e2 "file not found" = true <;>
          simp [fetchResults, isNotFound, hn1, hn2] at hside hsucc ⊢
      · rename_i e1 newContent
        by_cases hn1 : stringsContains e1 "file not found" = true <;>
          cases hp : parseDataProduct env newContent.Content <;>
          simp [fetchResults, isNotFound, hn1, hp, hold] at hside hsucc ⊢
      · rename_i oldContent e2
        by_cases hn2 : stringsContains e2 "file not found" = true <;>
          cases hp : parseDataProduct env oldContent.Content <;>
          simp [fetchResults, isNotFound, hn2, hp, hnew] at hside hsucc ⊢
      · rename_i oldContent newContent
        cases hp : parseDataProduct env oldContent.Content <;>
          cases hq : parseDataProduct env newContent.Content <;>
          simp [fetchResults, hp, hq] at hside hsucc ⊢

theorem analyzeFileChange_new_or_deleted_no_changes_witness :
    (((∃ oldErr rest,
          fetchResults
              (callsOfAnalyzeFileChange sampleEnv sampleClient () 1 7 "deleted/product.yaml") =
            .error oldErr :: rest ∧ isNotFound oldErr = true) ∨
        (∃ oldContent newErr,
          fetchResults
              (callsOfAnalyzeFileChange sampleEnv sampleClient () 1 7 "deleted/product.yaml") =
            [.ok oldContent, .error newErr] ∧ isNotFound newErr = true)) ∧
      (analyzeFileChange sampleEnv sampleClient () 1 7 "deleted/product.yaml").1.2 = none) ∧
    ((analyzeFileChange sampleEnv sampleClient () 1 7 "deleted/product.yaml").1.1 = some [] ∧
      ∀ (path : String) (oldDP newDP : DataProduct),
        oldDP.Warehouses = [] ∨ newDP.Warehouses = [] →
          compareWarehouses sampleEnv path oldDP newDP = []) :=
  ⟨⟨Or.inr ⟨{ Content := "warehouses:\n- type: user\n  size: SMALL\n" }, "404 file not found",
      by decide, by decide⟩, by decide⟩,
    analyzeFileChange_new_or_deleted_no_changes sampleEnv sampleClient () 1 7
      "deleted/product.yaml"
      (Or.inr ⟨{ Content := "warehouses:\n- type: user\n  size: SMALL\n" },
        "404 file not found", by decide, by decide⟩)
      (by decide)⟩

/-! ## More theorems on `AnalyzeChanges` -/

/-- A successful analysis adds to the journal one `GetMRTargetBranch` call and
two fetches of the file. -/
theorem analyzeFileChange_success_journal {σ : Type} (env : Env)
    (client : GitLabClientInterface σ) (st : σ) (log : List Call) (projectID mrIID : Int)
    (filePath : String)
    (hok : (analyzeFileChange env (recording client) (st, log) projectID mrIID filePath).1.2
      = none) :
    fetchPaths (analyzeFileChange env (recording client) (st, log) projectID mrIID filePath).2.2
        = fetchPaths log ++ [filePath, filePath] ∧
      targetBranchCalls
          (analyzeFileChange env (recording client) (st, log) projectID mrIID filePath).2.2
        = targetBranchCalls log + 1 := by
  unfold analyzeFileChange at hok ⊢
  simp only [recording] at hok ⊢
  rcases h1 : client.GetMRTargetBranch st projectID mrIID with ⟨r1, st1⟩
  simp only [h1] at hok
  cases r1 with
  | error e => simp at hok
  | ok targetBranch =>
    simp only [] at hok ⊢
    rcases h2 : client.GetMRDetails st1 projectID mrIID with ⟨r2, st2⟩
    simp only [h2] at hok
    cases r2 with
    | error e => simp at hok
    | ok mrDetails =>
      simp only [] at hok ⊢
      rcases h3 : client.FetchFileContent st2 projectID filePath targetBranch with ⟨r3, st3⟩
      rcases h4 : client.FetchFileContent st3
        (if mrDetails.SourceProjectID ≠ 0 ∧ mrDetails.SourceProjectID ≠ projectID then
          mrDetails.SourceProjectID else projectID) filePath mrDetails.SourceBranch
        with ⟨r4, st4⟩
      simp only [h3, h4] at hok
      cases r3 <;> cases r4 <;> simp only [h4] at hok ⊢
      · rename_i e1 e2
        by_cases hn1 : stringsContains e1 "file not found" = true <;>
          by_cases hn2 : stringsContains e2 "file not found" = true <;>
          simp [hn1, hn2] at hok ⊢ <;>
          simp [fetchPaths, fetchCalls, targetBranchCalls, List.filterMap_append,
            List.filter_append]
      · rename_i e1 newContent
        by_cases hn1 : stringsContains e1 "file not found" = true <;>
          cases hp : parseDataProduct env newContent.Content <;>
          simp [hn1, hp] at hok ⊢ <;>
          simp [fetchPaths, fetchCalls, targetBranchCalls, List.filterMap_append,
            List.filter_append]
      · rename_i oldContent e2
        by_cases hn2 : stringsContains e2 "file not found" = true <;>
          cases hp : parseDataProduct env oldContent.Content <;>
          simp [hn2, hp] at hok ⊢ <;>
          simp [fetchPaths, fetchCalls, targetBranchCalls, List.filterMap_append,
            List.filter_append]
      · rename_i oldContent newContent
        cases hp : parseDataProduct env oldContent.Content <;>
          cases hq : parseDataProduct env newContent.Content <;>
          simp [hp, hq] at hok ⊢ <;>
          simp [fetchPaths, fetchCalls, targetBranchCalls, List.filterMap_append,
            List.filter_append]

/-- The journal of a run of the loop on which no analysis fails. -/
theorem analyzeChangesLoop_success_journal {σ : Type} (env : Env)
    (client : GitLabClientInterface σ) (projectID mrIID : Int) (changes : List FileChange)
    (st : σ) (log : List Call) (acc : List WarehouseChange)
    (hok : (analyzeChangesLoop env (recording client) projectID mrIID changes (st, log) acc).1.2
      = none) :
    fetchPaths
        (analyzeChangesLoop env (recording client) projectID mrIID changes (st, log) acc).2.2
        = fetchPaths log ++ (analyzedPaths env changes).flatMap (fun path => [path, path]) ∧
      targetBranchCalls
          (analyzeChangesLoop env (recording client) projectID mrIID changes (st, log) acc).2.2
        = targetBranchCalls log + (analyzedPaths env changes).length := by
  induction changes generalizing st log acc with
  | nil => simp [analyzeChangesLoop, analyzedPaths]
  | cons change changes ih =>
    rw [analyzeChangesLoop_cons] at hok ⊢
    by_cases hdel : change.DeletedFile = true
    · simp only [hdel, if_true] at hok ⊢
      have := ih st log acc hok
      simpa [analyzedPaths, hdel] using this
    · simp only [hdel, Bool.false_eq_true, if_false] at hok ⊢
      by_cases hdom : env.IsDataProductFile change.NewPath = true
      · simp only [hdom, Bool.not_true, Bool.false_eq_true, if_false] at hok ⊢
        have hpaths : analyzedPaths env (change :: changes) =
            change.NewPath :: analyzedPaths env changes := by
          simp [analyzedPaths, hdel, hdom]
        have hone := analyzeFileChange_success_journal env client st log projectID mrIID
          change.NewPath
        rcases hres : analyzeFileChange env (recording client) (st, log) projectID mrIID
          change.NewPath with ⟨⟨res, err⟩, ⟨st1, log1⟩⟩
        rw [hres] at hok hone
        cases err with
        | some e => simp at hok
        | none =>
          obtain ⟨hf, ht⟩ := hone rfl
          simp only [] at hf ht
          cases res with
          | some fileChanges =>
            simp only [] at hok ⊢
            obtain ⟨h1, h2⟩ := ih st1 log1 _ hok
            rw [h1, h2, hf, ht, hpaths]
            simp [List.flatMap_cons]
            omega
          | none =>
            simp only [] at hok ⊢
            obtain ⟨h1, h2⟩ := ih st1 log1 _ hok
            rw [h1, h2, hf, ht, hpaths]
            simp [List.flatMap_cons]
            omega
      · simp only [hdom, Bool.not_false, if_true] at hok ⊢
        have := ih st log acc hok
        simpa [analyzedPaths, hdel, hdom] using this

/-- C15, as stated, fails: the deleted file `b/product.yaml` matches the domain
file filter and no analysis fails, yet `AnalyzeChanges` does not invoke
`analyzeFileChange` for it: the client receives no call. -/
theorem AnalyzeChanges_skips_deleted_file :
    sampleEnv.IsDataProductFile "b/product.yaml" = true ∧
      AnalyzeChanges sampleEnv (recording sampleClient) ((), []) 1 7
          [{ NewPath := "b/product.yaml", DeletedFile := true }] =
        ((some [], none), ((), [])) := by
  decide

/-- C15, amended: for every list of file changes on which no analysis fails,
`AnalyzeChanges` invokes `analyzeFileChange` exactly once for each changed file
that is not deleted and whose `NewPath` matches the domain file filter, in the
order of the list, and never for a deleted file or for a file whose path does
not match the filter: the journal of the run has one `GetMRTargetBranch` call
(the first call of every invocation) per such file, and its fetches are, file
after file, the two fetches of each such file. -/
theorem AnalyzeChanges_invokes_once_per_analyzed_file {σ : Type} (env : Env)
    (client : GitLabClientInterface σ) (st : σ) (projectID mrIID : Int)
    (changes : List FileChange)
    (hok : (AnalyzeChanges env (recording client) (st, []) projectID mrIID changes).1.2 = none) :
    (∀ path, path ∈ analyzedPaths env changes ↔
      ∃ change ∈ changes, change.DeletedFile = false ∧
        env.IsDataProductFile change.NewPath = true ∧ change.NewPath = path) ∧
    targetBranchCalls (AnalyzeChanges env (recording client) (st, []) projectID mrIID changes).2.2
      = (analyzedPaths env changes).length ∧
    fetchPaths (AnalyzeChanges env (recording client) (st, []) projectID mrIID changes).2.2
      = (analyzedPaths env changes).flatMap (fun path => [path, path]) := by
  unfold AnalyzeChanges at hok ⊢
  obtain ⟨h1, h2⟩ :=
    analyzeChangesLoop_success_journal env client projectID mrIID changes st [] [] hok
  refine ⟨?_, ?_, ?_⟩
  · intro path
    simp [analyzedPaths, and_assoc]
  · rw [h2]
    simp [targetBranchCalls]
  · rw [h1]
    simp [fetchPaths, fetchCalls]

theorem AnalyzeChanges_invokes_once_per_analyzed_file_witness :
    (AnalyzeChanges sampleEnv (recording sampleClient) ((), []) 1 7
        [{ NewPath := "README.md", DeletedFile := false },
          { NewPath := "b/product.yaml", DeletedFile := true },
          { NewPath := "b/product.yaml", DeletedFile := false },
          { NewPath := "deleted/product.yaml", DeletedFile := false }]).1.2 = none ∧
    ((∀ path, path ∈ analyzedPaths sampleEnv
          [{ NewPath := "README.md", DeletedFile := false },
            { NewPath := "b/product.yaml", DeletedFile := true },
            { NewPath := "b/product.yaml", DeletedFile := false },
            { NewPath := "deleted/product.yaml", DeletedFile := false }] ↔
        ∃ change ∈ ([{ NewPath := "README.md", DeletedFile := false },
            { NewPath := "b/product.yaml", DeletedFile := true },
            { NewPath := "b/product.yaml", DeletedFile := false },
            { NewPath := "deleted/product.yaml", DeletedFile := false }] : List FileChange),
          change.DeletedFile = false ∧
            sampleEnv.IsDataProductFile change.NewPath = true ∧ change.NewPath = path) ∧
      targetBranchCalls (AnalyzeChanges sampleEnv (recording sampleClient) ((), []) 1 7
          [{ NewPath := "README.md", DeletedFile := false },
            { NewPath := "b/product.yaml", DeletedFile := true },
            { NewPath := "b/product.yaml", DeletedFile := false },
            { NewPath := "deleted/product.yaml", DeletedFile := false }]).2.2
        = (analyzedPaths sampleEnv
          [{ NewPath := "README.md", DeletedFile := false },
            { NewPath := "b/product.yaml", DeletedFile := true },
            { NewPath := "b/product.yaml", DeletedFile := false },
            { NewPath := "deleted/product.yaml", DeletedFile := false }]).length ∧
      fetchPaths (AnalyzeChanges sampleEnv (recording sampleClient) ((), []) 1 7
          [{ NewPath := "README.md", DeletedFile := false },
            { NewPath := "b/product.yaml", DeletedFile := true },
            { NewPath := "b/product.yaml", DeletedFile := false },
            { NewPath := "deleted/product.yaml", DeletedFile := false }]).2.2
        = (analyzedPaths sampleEnv
          [{ NewPath := "README.md", DeletedFile := false },
            { NewPath := "b/product.yaml", DeletedFile := true },
            { NewPath := "b/product.yaml", DeletedFile := false },
            { NewPath := "deleted/product.yaml", DeletedFile := false }]).flatMap
          (fun path => [path, path])) :=
  ⟨by decide,
    AnalyzeChanges_invokes_once_per_analyzed_file sampleEnv sampleClient () 1 7
      [{ NewPath := "README.md", DeletedFile := false },
        { NewPath := "b/product.yaml", DeletedFile := true },
        { NewPath := "b/product.yaml", DeletedFile := false },
        { NewPath := "deleted/product.yaml", DeletedFile := false }]
      (by decide)⟩

/-! ## Theorems on the warehouse rule -/

/-- C16: for a rule built by `NewRule(nil)` (no evaluation context), for every
in-domain file path, every file content and every list of line ranges,
`ValidateLines` returns the decision `ManualReview` with a reason containing
`Warehouse validation requires full context`, whatever the policy of the
context-supplied case is. -/
theorem ValidateLines_without_context {κ : Type}
    (withContext : κ → String → String → List LineRange → DecisionType × String)
    (filePath fileContent : String) (lineRanges : List LineRange)
    (hdomain : isWarehouseFile (NewRule (none : Option κ)) filePath = true) :
    (ValidateLines withContext (NewRule none) filePath fileContent lineRanges).1 =
        DecisionType.ManualReview ∧
      stringsContains (ValidateLines withContext (NewRule none) filePath fileContent lineRanges).2
        "Warehouse validation requires full context" = true := by
  unfold ValidateLines
  rw [hdomain]
  exact ⟨rfl, rfl⟩

theorem ValidateLines_without_context_witness :
    isWarehouseFile (NewRule (none : Option Unit)) "dataproducts/analytics/product.yaml" = true ∧
    ((ValidateLines (fun _ _ _ _ => (DecisionType.Approve, "")) (NewRule (none : Option Unit))
          "dataproducts/analytics/product.yaml"
          "name: test\nwarehouses:\n- type: user\n  size: XSMALL\n"
          [{ StartLine := 2, EndLine := 4,
             FilePath := "dataproducts/analytics/product.yaml" }]).1 =
        DecisionType.ManualReview ∧
      stringsContains
        (ValidateLines (fun _ _ _ _ => (DecisionType.Approve, "")) (NewRule (none : Option Unit))
          "dataproducts/analytics/product.yaml"
          "name: test\nwarehouses:\n- type: user\n  size: XSMALL\n"
          [{ StartLine := 2, EndLine := 4,
             FilePath := "dataproducts/analytics/product.yaml" }]).2
        "Warehouse validation requires full context" = true) :=
  ⟨by decide,
    ValidateLines_without_context (fun _ _ _ _ => (DecisionType.Approve, ""))
      "dataproducts/analytics/product.yaml"
      "name: test\nwarehouses:\n- type: user\n  size: XSMALL\n"
      [{ StartLine := 2, EndLine := 4, FilePath := "dataproducts/analytics/product.yaml" }]
      (by decide)⟩

/-- C17: for every file path that does not match the domain file filter, every
file content and every list of line ranges, `ValidateLines` returns the decision
`Approve` with a reason containing `Not a warehouse file`, for every rule (with
or without evaluation context) and whatever the policy of the context-supplied
case is: the rule abstains instead of blocking. -/
theorem ValidateLines_out_of_domain {κ : Type}
    (withContext : κ → String → String → List LineRange → DecisionType × String)
    (rule : Rule κ) (filePath fileContent : String) (lineRanges : List LineRange)
    (hdomain : isWarehouseFile rule filePath = false) :
    (ValidateLines withContext rule filePath fileContent lineRanges).1 =
        DecisionType.Approve ∧
      stringsContains (ValidateLines withContext rule filePath fileContent lineRanges).2
        "Not a warehouse file" = true := by
  unfold ValidateLines
  rw [hdomain]
  exact ⟨rfl, rfl⟩

theorem ValidateLines_out_of_domain_witness :
    isWarehouseFile (NewRule (none : Option Unit)) "README.md" = false ∧
    ((ValidateLines (fun _ _ _ _ => (DecisionType.ManualReview, "")) (NewRule (none : Option Unit))
          "README.md" "# README\n"
          [{ StartLine := 1, EndLine := 1, FilePath := "README.md" }]).1 =
        DecisionType.Approve ∧
      stringsContains
        (ValidateLines (fun _ _ _ _ => (DecisionType.ManualReview, ""))
          (NewRule (none : Option Unit)) "README.md" "# README\n"
          [{ StartLine := 1, EndLine := 1, FilePath := "README.md" }]).2
        "Not a warehouse file" = true) :=
  ⟨by decide,
    ValidateLines_out_of_domain (fun _ _ _ _ => (DecisionType.ManualReview, ""))
      (NewRule (none : Option Unit)) "README.md" "# README\n"
      [{ StartLine := 1, EndLine := 1, FilePath := "README.md" }] (by decide)⟩

theorem foldl_finalComponent_of_not_mem (name acc : List Char) (h : '/' ∉ name) :
    name.foldl (fun acc c => if c = '/' then [] else acc ++ [c]) acc = acc ++ name := by
  induction name generalizing acc with
  | nil => simp
  | cons c name ih =>
    rw [List.mem_cons, not_or] at h
    have hc : ¬ c = '/' := fun hc => h.1 hc.symm
    rw [List.foldl_cons, if_neg hc, ih _ h.2]
    simp

/-- The final component of `dir/name` is `name`, and a path without `/` is its
own final component. -/
theorem finalComponent_spec (dir name : List Char) (h : '/' ∉ name) :
    finalComponent (dir ++ '/' :: name) = name ∧ finalComponent name = name := by
  unfold finalComponent
  constructor
  · rw [List.foldl_append, List.foldl_cons, if_pos rfl, foldl_finalComponent_of_not_mem _ _ h]
    rfl
  · rw [foldl_finalComponent_of_not_mem _ _ h]
    rfl

/-- C18: the domain file filter (`isWarehouseFile`, and `IsDataProductFile` as
used by `AnalyzeChanges`) returns true for a path if and only if the final
component of the path (`name` in `dir/name`, or the whole path when it has no
`/`), compared case-insensitively, equals `product.yaml` or `product.yml`; in
particular it is true for `dataproducts/analytics/product.yaml`,
`path/to/product.yml` and `Product.YAML`, and false for `README.md`, the empty
path and `config.yaml`. -/
theorem IsDataProductFile_iff {κ : Type} (rule : Rule κ) :
    (∀ path, isWarehouseFile rule path = IsDataProductFile path) ∧
    (∀ dir name : String, '/' ∉ name.data →
      (IsDataProductFile (dir ++ "/" ++ name) = true ↔
        name.data.map Char.toLower = "product.yaml".data ∨
          name.data.map Char.toLower = "product.yml".data)) ∧
    (∀ name : String, '/' ∉ name.data →
      (IsDataProductFile name = true ↔
        name.data.map Char.toLower = "product.yaml".data ∨
          name.data.map Char.toLower = "product.yml".data)) ∧
    IsDataProductFile "dataproducts/analytics/product.yaml" = true ∧
    IsDataProductFile "path/to/product.yml" = true ∧
    IsDataProductFile "Product.YAML" = true ∧
    IsDataProductFile "README.md" = false ∧
    IsDataProductFile "" = false ∧
    IsDataProductFile "config.yaml" = false := by
  refine ⟨fun _ => rfl, ?_, ?_, by decide, by decide, by decide, by decide, by decide,
    by decide⟩
  · intro dir name h
    unfold IsDataProductFile
    have hd : (dir ++ "/" ++ name).data = dir.data ++ '/' :: name.data := by
      simp [String.data_append]
    rw [hd, (finalComponent_spec dir.data name.data h).1]
    simp
  · intro name h
    unfold IsDataProductFile
    rw [(finalComponent_spec [] name.data h).2]
    simp

/-- The ranges of `coveredFrom`: one per marker line, on that line, in order. -/
theorem coveredFrom_spec (filePath : String) (lines : List (List Char)) (n : Nat) :
    (∀ r ∈ coveredFrom filePath n lines,
      r.FilePath = filePath ∧ r.StartLine = r.EndLine ∧
        ∃ (i : Nat) (line : List Char), r.StartLine = ((n + i : Nat) : Int) ∧
          lines[i]? = some line ∧ isSectionMarker line = true) ∧
    (coveredFrom filePath n lines).length = lines.countP isSectionMarker ∧
    (coveredFrom filePath n lines).Pairwise (fun r r' => r.StartLine < r'.StartLine) := by
  induction lines generalizing n with
  | nil => simp [coveredFrom]
  | cons line lines ih =>
    obtain ⟨ih1, ih2, ih3⟩ := ih (n + 1)
    have hshift : ∀ r ∈ coveredFrom filePath (n + 1) lines,
        r.FilePath = filePath ∧ r.StartLine = r.EndLine ∧
          ∃ (i : Nat) (l : List Char), r.StartLine = ((n + i : Nat) : Int) ∧
            (line :: lines)[i]? = some l ∧ isSectionMarker l = true := by
      intro r hr
      obtain ⟨h1, h2, i, l, h3, h4, h5⟩ := ih1 r hr
      refine ⟨h1, h2, i + 1, l, ?_, ?_, h5⟩
      · rw [h3]
        congr 1
        omega
      · simpa using h4
    unfold coveredFrom
    by_cases hm : isSectionMarker line = true
    · simp only [hm, if_true, List.mem_cons, List.length_cons, List.pairwise_cons]
      refine ⟨?_, ?_, ?_, ih3⟩
      · rintro r (rfl | hr)
        · exact ⟨rfl, rfl, 0, line, rfl, by simp, hm⟩
        · exact hshift r hr
      · rw [ih2, List.countP_cons_of_pos _ _ hm]
      · intro r hr
        obtain ⟨_, _, i, _, h3, _, _⟩ := ih1 r hr
        rw [h3]
        simp only [Nat.cast_add, Nat.cast_one]
        omega
    · simp only [hm, Bool.false_eq_true, if_false]
      refine ⟨hshift, ?_, ih3⟩
      rw [ih2, List.countP_cons_of_neg _ _ hm]

/-- C19: for every in-domain file path and every file content,
`GetCoveredLines` returns exactly one range per section marker line
(`warehouses:` or `service_account:`) of the content, in the order the markers
appear: every range has `FilePath` equal to the given path and
`StartLine = EndLine =` the 1-based number of a marker line (so `StartLine > 0`
and `EndLine >= StartLine`), the ranges are as many as the marker lines, and
their line numbers increase strictly; content with no marker, empty content,
and any out-of-domain path yield zero ranges.  The contents of the tests yield
one range on line 2, two ranges on lines 2 and 5, no range, and one range on
line 3. -/
theorem GetCoveredLines_one_range_per_marker {κ : Type} (rule : Rule κ)
    (filePath fileContent : String) :
    (isWarehouseFile rule filePath = true →
      (∀ r ∈ GetCoveredLines rule filePath fileContent,
        r.FilePath = filePath ∧ r.StartLine = r.EndLine ∧ 0 < r.StartLine ∧
          r.StartLine ≤ r.EndLine ∧
          ∃ (i : Nat) (line : List Char), r.StartLine = ((i + 1 : Nat) : Int) ∧
            (splitLines fileContent.data)[i]? = some line ∧ isSectionMarker line = true) ∧
      (GetCoveredLines rule filePath fileContent).length =
        (splitLines fileContent.data).countP isSectionMarker ∧
      (GetCoveredLines rule filePath fileContent).Pairwise
        (fun r r' => r.StartLine < r'.StartLine) ∧
      ((∀ line ∈ splitLines fileContent.data, isSectionMarker line = false) →
        GetCoveredLines rule filePath fileContent = [])) ∧
    (isWarehouseFile rule filePath = false → GetCoveredLines rule filePath fileContent = []) ∧
    GetCoveredLines rule filePath "" = [] ∧
    GetCoveredLines rule "dataproducts/analytics/product.yaml"
        "name: test\nwarehouses:\n- type: user\n  size: XSMALL\ndata_product_db:\n- database: test"
      = [{ StartLine := 2, EndLine := 2, FilePath := "dataproducts/analytics/product.yaml" }] ∧
    GetCoveredLines rule "dataproducts/analytics/product.yaml"
        ("name: test\nwarehouses:\n- type: user\n  size: XSMALL\nservice_account:\n" ++
          "  dbt: true\ndata_product_db:\n- database: test")
      = [{ StartLine := 2, EndLine := 2, FilePath := "dataproducts/analytics/product.yaml" },
          { StartLine := 5, EndLine := 5, FilePath := "dataproducts/analytics/product.yaml" }] ∧
    GetCoveredLines rule "dataproducts/analytics/product.yaml"
        "name: test\nkind: source\ndata_product_db:\n- database: test\nconsumers:\n- name: test"
      = [] ∧
    GetCoveredLines rule "README.md" "# README\nThis is a readme file\n" = [] ∧
    GetCoveredLines rule "dataproducts/source/ebs/dev/product.yaml"
        ("name: ebs\nkind: source-aligned\nwarehouses:\n- type: user\n  size: SMALL\n" ++
          "data_product_db:\n- database: ebs_db\n  presentation_schemas:\n  - name: marts\n" ++
          "    consumers:\n    - kind: data_product\n      name: fpna")
      = [{ StartLine := 3, EndLine := 3,
           FilePath := "dataproducts/source/ebs/dev/product.yaml" }] := by
  refine ⟨?_, ?_, ?_, rfl, rfl, rfl, rfl, rfl⟩
  · intro hdomain
    obtain ⟨h1, h2, h3⟩ := coveredFrom_spec filePath (splitLines fileContent.data) 1
    have heq : GetCoveredLines rule filePath fileContent =
        coveredFrom filePath 1 (splitLines fileContent.data) := by
      unfold GetCoveredLines
      rw [hdomain]
      rfl
    rw [heq]
    refine ⟨?_, h2, h3, ?_⟩
    · intro r hr
      obtain ⟨ha, hb, i, line, hc, hd, he⟩ := h1 r hr
      refine ⟨ha, hb, ?_, le_of_eq hb, i, line, ?_, hd, he⟩
      · rw [hc]
        simp only [Nat.cast_add, Nat.cast_one]
        omega
      · rw [hc]
        congr 1
        omega
    · intro hnone
      rw [← List.length_eq_zero, h2, List.countP_eq_zero]
      intro line hline
      rw [hnone line hline]
      exact Bool.false_ne_true
  · intro hdomain
    unfold GetCoveredLines
    rw [hdomain]
    rfl
  · unfold GetCoveredLines
    split
    · rfl
    · rfl

end Naysayer
